import Mathlib

/-!
# OSD Lyrics track metadata (`src/ol_metadata.c`)

A shallow embedding of the `OlMetadata` record and of the operations on it,
followed by theorems about them.

Conventions of the embedding.

* A `char` is a byte, held as a `Nat`; a C string is the list of its bytes
  before the terminating NUL (`CStr`).  A `char *` that may be `NULL` is an
  `Option CStr`.  String constants of the source are written `utf8 "..."`,
  the UTF-8 bytes of the literal.
* Where the source works inside a buffer (the serializer's destination, the
  working copy of the deserializer, the title that the sanitizer edits in
  place) the buffer is explicit: a list of bytes, or a log of stores, and
  pointers into it are offsets.
* `int` is `Int` (signed overflow is undefined in C, so running totals are
  exact); `size_t` is 64 bits wide and its arithmetic is taken `% 2 ^ 64`;
  `guint64` is a `Nat`.
* Library functions (`snprintf`, `strstr`, `g_strstrip`, `g_ascii_strdown`,
  `sscanf`, `g_ascii_strtoull`, the `GVariant` accessors) follow their C / GLib
  documentation.
* Instances that are copied live in a store indexed by pointer (`Heap`), so
  that two pointers to one instance can be told from two equal instances.
-/

namespace OsdLyrics

/-! ## Bytes and C strings -/

/-- A C string: the bytes before the terminating NUL. -/
abbrev CStr := List Nat

/-- The UTF-8 bytes of a string literal of the source. -/
def utf8 (s : String) : CStr :=
  s.toList.flatMap (fun c => (String.utf8EncodeChar c).map UInt8.toNat)

/-- The byte `'\n'`. -/
def NL : Nat := 10

/-- The C string that starts at offset `p` of `buf`: the bytes from `p` up to
the first NUL. -/
def cstrAt (buf : List Nat) (p : Nat) : CStr :=
  (buf.drop p).takeWhile (fun b => b != 0)

/-- `strlen (buf + p)`. -/
def strlen (buf : List Nat) (p : Nat) : Nat :=
  (cstrAt buf p).length

/-- `g_strdup`: a fresh copy of a C string. -/
def g_strdup (s : CStr) : CStr := s

/-! ## The record -/

/-- `const int DEFAULT_TRACK_NUM = -1;` -/
def DEFAULT_TRACK_NUM : Int := -1

/-- `struct _OlMetadata`. -/
structure OlMetadata where
  /-- The title of the track -/
  title : Option CStr
  /-- The artist of the track -/
  artist : Option CStr
  /-- The album name of the track -/
  album : Option CStr
  /-- The track number of the track -/
  track_number : Int
  /-- URI of the track -/
  uri : Option CStr
  /-- URI of the album art -/
  art : Option CStr
  /-- Length of the track -/
  duration : Nat
deriving DecidableEq, Repr

/-- `internal_set_string`: the old string is freed and the new value, when
not `NULL`, is duplicated into the slot. -/
def internal_set_string (_string : Option CStr) (val : Option CStr) : Option CStr :=
  match val with
  | none => none
  | some v => some (g_strdup v)

/-- `ol_metadata_init`. -/
def ol_metadata_init : OlMetadata :=
  { artist := none, title := none, album := none, uri := none, art := none,
    duration := 0, track_number := DEFAULT_TRACK_NUM }

/-- `ol_metadata_new`. -/
def ol_metadata_new : OlMetadata := ol_metadata_init

/-- `ol_metadata_set_title`. -/
def ol_metadata_set_title (metadata : OlMetadata) (title : Option CStr) : OlMetadata :=
  { metadata with title := internal_set_string metadata.title title }

/-- `ol_metadata_set_artist`. -/
def ol_metadata_set_artist (metadata : OlMetadata) (artist : Option CStr) : OlMetadata :=
  { metadata with artist := internal_set_string metadata.artist artist }

/-- `ol_metadata_set_album`. -/
def ol_metadata_set_album (metadata : OlMetadata) (album : Option CStr) : OlMetadata :=
  { metadata with album := internal_set_string metadata.album album }

/-- `ol_metadata_set_track_number`. -/
def ol_metadata_set_track_number (metadata : OlMetadata) (track_number : Int) : OlMetadata :=
  { metadata with track_number := track_number }

/-- `ol_metadata_set_uri`. -/
def ol_metadata_set_uri (metadata : OlMetadata) (uri : Option CStr) : OlMetadata :=
  { metadata with uri := internal_set_string metadata.uri uri }

/-- `ol_metadata_set_art`. -/
def ol_metadata_set_art (metadata : OlMetadata) (art : Option CStr) : OlMetadata :=
  { metadata with art := internal_set_string metadata.art art }

/-- `ol_metadata_set_duration`. -/
def ol_metadata_set_duration (metadata : OlMetadata) (duration : Nat) : OlMetadata :=
  { metadata with duration := duration }

/-! ## Equality -/

/-- `internal_streq`: two `NULL`s are equal, a `NULL` and a string are not,
two strings are compared with `strcmp`. -/
def internal_streq (lhs rhs : Option CStr) : Bool :=
  match lhs, rhs with
  | none, none => true
  | none, some _ => false
  | some _, none => false
  | some l, some r => l == r

/-- `ol_metadata_equal` on two instances that are both present. -/
def ol_metadata_equal (lhs rhs : OlMetadata) : Bool :=
  if !internal_streq lhs.title rhs.title then false
  else if !internal_streq lhs.artist rhs.artist then false
  else if !internal_streq lhs.album rhs.album then false
  else if lhs.track_number != rhs.track_number then false
  else if !internal_streq lhs.uri rhs.uri then false
  else if !internal_streq lhs.art rhs.art then false
  else if lhs.duration != rhs.duration then false
  else true

/-! ## Serialization -/

/-- Width of `size_t`: its values are taken `% SIZE_MOD`. -/
def SIZE_MOD : Nat := 2 ^ 64

/-- Conversion of an `int` to `size_t`. -/
def to_size_t (x : Int) : Nat := (x % (SIZE_MOD : Int)).toNat

/-- The `size_t` expression `count - cnt` of the serializer: `cnt` is
converted to `size_t` and the difference wraps around. -/
def size_sub (count : Nat) (cnt : Int) : Nat :=
  (count + SIZE_MOD - to_size_t cnt) % SIZE_MOD

/-- Output of `printf ("%d", n)`. -/
def fmt_d (n : Int) : CStr := (Int.repr n).toList.map Char.toNat

/-- Output of `printf ("%" G_GUINT64_FORMAT, n)`. -/
def fmt_u64 (n : Nat) : CStr := (Nat.repr n).toList.map Char.toNat

/-- Memory seen through the pointer `buffer`: the byte at each offset. -/
abbrev Mem := Nat → Nat

/-- One store through `buffer`: the offset written and the byte. -/
abbrev Write := Nat × Nat

/-- The stores that copy `bs` to the offsets `dst`, `dst + 1`, ... -/
def storeBytes (dst : Nat) : List Nat → List Write
  | [] => []
  | b :: bs => (dst, b) :: storeBytes (dst + 1) bs

/-- `snprintf (buffer + dst, n, ...)` where the formatted output is `s`: with
`n = 0` nothing is stored; otherwise the first `n - 1` bytes of `s` are
stored, followed by a NUL.  The return value is the length of `s`. -/
def snprintf (dst : Nat) (n : Nat) (s : CStr) : List Write × Int :=
  if n = 0 then ([], (s.length : Int))
  else (storeBytes dst (s.take (n - 1)) ++ [(dst + min s.length (n - 1), 0)],
        (s.length : Int))

/-- `internal_snprint`: a `NULL` value prints as the empty string. -/
def internal_snprint (dst : Nat) (count : Nat) (val : Option CStr) : List Write × Int :=
  let val := match val with
    | none => utf8 ""
    | some v => v
  snprintf dst count (val ++ utf8 "\n")

/-- What a call of `ol_metadata_serialize` leaves behind: the value returned
and every store made through `buffer`, oldest first. -/
structure Serialized where
  ret : Int
  writes : List Write
deriving DecidableEq, Repr

/-- The statement `cnt += print (buffer + cnt, count - cnt, ...)` of write
mode, on the stores made so far and the running total `cnt`. -/
def add_printed (count : Nat) (st : List Write × Int)
    (print : Nat → Nat → List Write × Int) : List Write × Int :=
  let r := print st.2.toNat (size_sub count st.2)
  (st.1 ++ r.1, st.2 + r.2)

/-- The end of write mode: `if (cnt < count) buffer[cnt] = '\0';
else if (count > 0) buffer[count - 1] = '\0';`. -/
def terminate (count : Nat) (st : List Write × Int) : List Write × Int :=
  if to_size_t st.2 < count then (st.1 ++ [(st.2.toNat, 0)], st.2)
  else if count > 0 then (st.1 ++ [(count - 1, 0)], st.2)
  else st

/-- `ol_metadata_serialize`.  `buffer` is `none` for a `NULL` pointer. -/
def ol_metadata_serialize (metadata : OlMetadata) (buffer : Option Mem) (count : Nat) :
    Serialized :=
  let cnt : Int := 0
  match buffer with
  | none =>
    let cnt := match metadata.title with
      | some t => cnt + t.length
      | none => cnt
    let cnt := cnt + 1
    let cnt := match metadata.artist with
      | some a => cnt + a.length
      | none => cnt
    let cnt := cnt + 1
    let cnt := match metadata.album with
      | some a => cnt + a.length
      | none => cnt
    let cnt := cnt + 1
    let cnt := cnt + (snprintf 0 100 (fmt_d metadata.track_number ++ utf8 "\n")).2
    let cnt := match metadata.uri with
      | some u => cnt + u.length
      | none => cnt
    let cnt := cnt + 1
    { ret := cnt, writes := [] }
  | some _ =>
    let st : List Write × Int := ([], cnt)
    let st := add_printed count st (fun dst n => internal_snprint dst n metadata.title)
    let st := add_printed count st (fun dst n => internal_snprint dst n metadata.artist)
    let st := add_printed count st (fun dst n => internal_snprint dst n metadata.album)
    let st := add_printed count st
      (fun dst n => snprintf dst n (fmt_d metadata.track_number ++ utf8 "\n"))
    let st := add_printed count st (fun dst n => internal_snprint dst n metadata.uri)
    let st := add_printed count st (fun dst n => internal_snprint dst n metadata.art)
    let st := add_printed count st
      (fun dst n => snprintf dst n (fmt_u64 metadata.duration ++ utf8 "\n"))
    let st := terminate count st
    { ret := st.2, writes := st.1 }

/-- The memory after the stores `ws` have been made, oldest first. -/
def replay (mem : Mem) : List Write → Mem
  | [] => mem
  | (i, b) :: ws => replay (fun j => if j = i then b else mem j) ws

/-- The first `count` bytes of a memory. -/
def bufferBytes (mem : Mem) (count : Nat) : List Nat :=
  (List.range count).map mem

/-! ## Deserialization -/

/-- Modelled from the spec: `ol_split_a_line` (declared in `ol_utils.h`; its
body is not part of this file).  The first `'\n'` of the C string at `str` is
replaced by a NUL in place and the position after it is returned; the result
is `NULL` when the string holds no `'\n'`, and also for a `NULL` argument. -/
def ol_split_a_line (buf : List Nat) (str : Option Nat) : List Nat × Option Nat :=
  match str with
  | none => (buf, none)
  | some p =>
    let line := (cstrAt buf p).takeWhile (fun b => b != NL)
    if line.length < strlen buf p then
      (buf.set (p + line.length) 0, some (p + line.length + 1))
    else (buf, none)

/-- `isspace` of the C locale, as `sscanf` and `strtoull` skip it. -/
def isspace (c : Nat) : Bool := c == 32 || (9 ≤ c && c ≤ 13)

/-- `g_ascii_isdigit`. -/
def g_ascii_isdigit (c : Nat) : Bool := 48 ≤ c && c ≤ 57

/-- The number written by a run of decimal digits. -/
def digitsValue (ds : List Nat) : Nat :=
  ds.foldl (fun acc d => 10 * acc + (d - 48)) 0

/-- A leading sign: whether it is `-`, and the text after it. -/
def takeSign (s : CStr) : Bool × CStr :=
  match s with
  | 45 :: r => (true, r)
  | 43 :: r => (false, r)
  | _ => (false, s)

/-- `sscanf (s, "%d", &tn)`: white space is skipped, then an optional sign and
a run of digits are read; without a digit nothing is stored (`none`). -/
def sscanf_d (s : CStr) : Option Int :=
  let t := takeSign (s.dropWhile isspace)
  let ds := t.2.takeWhile g_ascii_isdigit
  if ds.isEmpty then none
  else some (if t.1 then -(digitsValue ds : Int) else (digitsValue ds : Int))

/-- `g_ascii_strtoull (s, NULL, 10)`: 0 without a digit, `G_MAXUINT64` on
overflow, and a negated value is taken in 64-bit arithmetic. -/
def g_ascii_strtoull (s : CStr) : Nat :=
  let t := takeSign (s.dropWhile isspace)
  let v := digitsValue (t.2.takeWhile g_ascii_isdigit)
  if 2 ^ 64 ≤ v then 2 ^ 64 - 1
  else if t.1 then (2 ^ 64 - v) % 2 ^ 64
  else v

/-- The local variables of `ol_metadata_deserialize` once the lines have been
looked up: the working copy and the start of each line (`none` for `NULL`). -/
structure Lines where
  buffer : List Nat
  title : Option Nat
  artist : Option Nat
  album : Option Nat
  track_number : Option Nat
  uri : Option Nat
  art : Option Nat
  duration : Option Nat
  ret : Int
deriving DecidableEq, Repr

/-- The line lookups of `ol_metadata_deserialize` (the `if` / `else if` chain
and the lookup after the duration line), on the working copy `buffer`. -/
def deserialize_lines (buffer : List Nat) : Lines :=
  let st : Lines :=
    { buffer := buffer, title := some 0, artist := none, album := none,
      track_number := none, uri := none, art := none, duration := none, ret := 1 }
  let r := ol_split_a_line st.buffer st.title
  let st := { st with buffer := r.1, artist := r.2 }
  let st :=
    if st.artist.isNone then { st with ret := 0 } else
    let r := ol_split_a_line st.buffer st.artist
    let st := { st with buffer := r.1, album := r.2 }
    if st.album.isNone then { st with ret := 0 } else
    let r := ol_split_a_line st.buffer st.album
    let st := { st with buffer := r.1, track_number := r.2 }
    if st.track_number.isNone then { st with ret := 0 } else
    let r := ol_split_a_line st.buffer st.track_number
    let st := { st with buffer := r.1, uri := r.2 }
    if st.uri.isNone then { st with ret := 0 } else
    let r := ol_split_a_line st.buffer st.track_number
    let st := { st with buffer := r.1, art := r.2 }
    if st.art.isNone then { st with ret := 0 } else
    let r := ol_split_a_line st.buffer st.track_number
    let st := { st with buffer := r.1, duration := r.2 }
    if st.duration.isNone then { st with ret := 0 } else st
  let r := ol_split_a_line st.buffer st.duration
  let st := { st with buffer := r.1 }
  if r.2.isNone then { st with ret := 0 } else st

/-- The string a line pointer points to, `NULL` for `NULL`. -/
def lineAt (buf : List Nat) (p : Option Nat) : Option CStr :=
  p.map (cstrAt buf)

/-- `ol_metadata_deserialize`: the value returned and the metadata after the
call. -/
def ol_metadata_deserialize (metadata : OlMetadata) (data : CStr) : Int × OlMetadata :=
  let buffer := g_strdup data ++ [0]
  let st := deserialize_lines buffer
  if st.ret != 0 then
    let tn : Int :=
      match lineAt st.buffer st.track_number with
      | some s => (sscanf_d s).getD 0
      | none => 0
    let metadata := ol_metadata_set_title metadata (lineAt st.buffer st.title)
    let metadata := ol_metadata_set_artist metadata (lineAt st.buffer st.artist)
    let metadata := ol_metadata_set_album metadata (lineAt st.buffer st.album)
    let metadata := ol_metadata_set_track_number metadata tn
    let metadata := ol_metadata_set_uri metadata (lineAt st.buffer st.uri)
    let metadata := ol_metadata_set_art metadata (lineAt st.buffer st.art)
    let metadata := ol_metadata_set_duration metadata
      (match lineAt st.buffer st.duration with
       | some s => g_ascii_strtoull s
       | none => 0)
    (st.ret, metadata)
  else (st.ret, metadata)

/-! ## The title / artist sanitizer -/

/-- `g_ascii_isspace`: space, `\t`, `\n`, `\f` and `\r`. -/
def g_ascii_isspace (c : Nat) : Bool :=
  c == 32 || c == 9 || c == 10 || c == 12 || c == 13

/-- `g_ascii_tolower`. -/
def g_ascii_tolower (c : Nat) : Nat :=
  if 65 ≤ c ∧ c ≤ 90 then c + 32 else c

/-- `g_ascii_strdown (s, -1)`. -/
def g_ascii_strdown (s : CStr) : CStr := s.map g_ascii_tolower

/-- Offset of the first occurrence of `needle` in a string. -/
def findSub (needle : List Nat) : List Nat → Option Nat
  | [] => if needle.isPrefixOf [] then some 0 else none
  | c :: cs =>
    if needle.isPrefixOf (c :: cs) then some 0
    else (findSub needle cs).map (fun i => i + 1)

/-- `strstr (buf + p, needle)`, also `g_strstr_len (buf + p, -1, needle)`: the
position of the first occurrence of `needle` in the C string at `p`, `none`
for `NULL`. -/
def strstr (buf : List Nat) (p : Nat) (needle : CStr) : Option Nat :=
  (findSub needle (cstrAt buf p)).map (fun i => p + i)

/-- `memmove (buf + dst, buf + src, n)`. -/
def memmove (buf : List Nat) (dst src n : Nat) : List Nat :=
  buf.take dst ++ (buf.drop src).take n ++ buf.drop (dst + n)

/-- `g_strchug (buf + string)`: the string is moved left over its leading
white space, in place. -/
def g_strchug (buf : List Nat) (string : Nat) : List Nat :=
  let start := string + ((cstrAt buf string).takeWhile g_ascii_isspace).length
  memmove buf string start (strlen buf start + 1)

/-- The loop of `g_strchomp`: `while (len--)` a trailing white-space byte is
overwritten by a NUL. -/
def g_strchomp_loop (buf : List Nat) (string : Nat) : Nat → List Nat
  | 0 => buf
  | len + 1 =>
    if g_ascii_isspace (buf.getD (string + len) 0) then
      g_strchomp_loop (buf.set (string + len) 0) string len
    else buf

/-- `g_strchomp (buf + string)`. -/
def g_strchomp (buf : List Nat) (string : Nat) : List Nat :=
  g_strchomp_loop buf string (strlen buf string)

/-- `g_strstrip (buf + string)`: `g_strchomp (g_strchug (string))`; the
pointer returned is `string` itself. -/
def g_strstrip (buf : List Nat) (string : Nat) : List Nat :=
  g_strchomp (g_strchug buf string) string

/-- `invalid_arts`: list of invalid artist names. -/
def invalid_arts : List CStr := [utf8 "unknown", utf8 "未知", utf8 "群星"]

/-- `artist_valid`. -/
def artist_valid (metadata : OlMetadata) : Bool :=
  match metadata.artist with
  | none => false
  | some a =>
    if a.length = 0 then false
    else
      let artist := g_ascii_strdown a ++ [0]
      !(invalid_arts.any fun inv => strstr artist 0 inv == some 0)

/-- `separators`, in the order they are tried. -/
def separators : List CStr := [utf8 "--", utf8 " - ", utf8 "-"]

/-- Where `new_artist` points: still at `orig_artist`, or into the title's
storage. -/
inductive ArtistPtr where
  | orig_artist
  | in_title (p : Nat)
deriving DecidableEq, Repr

/-- The separator loop of the sanitizer, from the separator `seps.head` on:
the title's storage, `new_title` and `new_artist` when the loop ends. -/
def split_loop (buf : List Nat) (new_title : Nat) :
    List CStr → List Nat × Nat × ArtistPtr
  | [] => (buf, new_title, ArtistPtr.orig_artist)
  | sep :: seps =>
    match strstr buf new_title sep with
    | some tmp =>
      let rhs := tmp + sep.length
      let buf := g_strstrip buf rhs
      if strlen buf rhs > 0 then
        (buf.set tmp 0, rhs, ArtistPtr.in_title new_title)
      else split_loop buf new_title seps
    | none => split_loop buf new_title seps

/-- The track-number step of the sanitizer: the title's storage and
`new_title` after it. -/
def strip_track_number (buf : List Nat) (new_title : Nat) : List Nat × Nat :=
  match strstr buf new_title (utf8 ".") with
  | none => (buf, new_title)
  | some tmp =>
    if tmp != new_title then
      let is_track_number :=
        ((buf.drop new_title).take (tmp - new_title)).all
          (fun c => g_ascii_isdigit c || g_ascii_isspace c)
      if is_track_number then
        let rhs := tmp + 1
        let buf := g_strstrip buf rhs
        if strlen buf rhs > 0 then (buf, rhs) else (buf, new_title)
      else (buf, new_title)
    else (buf, new_title)

/-- `ol_metadata_sanitize_title_artist`.  The title's storage is the buffer
`title ++ [0]`, which the function edits in place; `orig_title` is offset 0. -/
def ol_metadata_sanitize_title_artist (metadata : OlMetadata) : OlMetadata :=
  match metadata.title with
  | none => metadata
  | some title =>
    if artist_valid metadata then metadata
    else
      let orig_title := 0
      let s1 := strip_track_number (title ++ [0]) orig_title
      let s2 := split_loop s1.1 s1.2 separators
      let buf := s2.1
      let new_title := s2.2.1
      let artist :=
        match s2.2.2 with
        | ArtistPtr.in_title p => some (g_strdup (cstrAt buf p))
        | ArtistPtr.orig_artist => metadata.artist
      let title :=
        if new_title != orig_title then some (g_strdup (cstrAt buf new_title))
        else some (cstrAt buf orig_title)
      { metadata with artist := artist, title := title }

/-! ## Clearing and copying -/

/-- `ol_metadata_clear`. -/
def ol_metadata_clear (metadata : OlMetadata) : OlMetadata :=
  let metadata := ol_metadata_set_title metadata none
  let metadata := ol_metadata_set_artist metadata none
  let metadata := ol_metadata_set_album metadata none
  let metadata := ol_metadata_set_track_number metadata DEFAULT_TRACK_NUM
  let metadata := ol_metadata_set_uri metadata none
  let metadata := ol_metadata_set_art metadata none
  ol_metadata_set_duration metadata 0

/-- The instances that are alive; a pointer to one is its position here. -/
abbrev Heap := List OlMetadata

/-- The instance a pointer points to. -/
def deref (heap : Heap) (p : Nat) : OlMetadata :=
  heap.getD p ol_metadata_new

/-- A setter called on the pointer `p`: the instance at `p` is replaced by
what the setter makes of it, the other instances are kept. -/
def through (heap : Heap) (p : Nat) (setter : OlMetadata → OlMetadata) : Heap :=
  heap.set p (setter (deref heap p))

/-- `ol_metadata_copy (dest, src)`, for two pointers to live instances: every
setter reads its value through `src` at the time it is called. -/
def ol_metadata_copy (heap : Heap) (dest src : Nat) : Heap :=
  if dest = src then heap
  else
    let heap := through heap dest
      (fun d => ol_metadata_set_title d (deref heap src).title)
    let heap := through heap dest
      (fun d => ol_metadata_set_artist d (deref heap src).artist)
    let heap := through heap dest
      (fun d => ol_metadata_set_album d (deref heap src).album)
    let heap := through heap dest
      (fun d => ol_metadata_set_track_number d (deref heap src).track_number)
    let heap := through heap dest
      (fun d => ol_metadata_set_uri d (deref heap src).uri)
    let heap := through heap dest
      (fun d => ol_metadata_set_art d (deref heap src).art)
    through heap dest
      (fun d => ol_metadata_set_duration d (deref heap src).duration)

/-- `ol_metadata_dup (src)`: the instances afterwards and the pointer
returned, which is that of a new instance. -/
def ol_metadata_dup (heap : Heap) (src : Nat) : Heap × Nat :=
  let metadata := heap.length
  let heap := heap ++ [ol_metadata_new]
  (ol_metadata_copy heap metadata src, metadata)

/-! ## Property maps -/

/-- A `GVariant` value, as far as the import and the export look at it: its
type and, for the types they read, its content. -/
inductive GVariant where
  /-- type `s` -/
  | string (s : CStr)
  /-- type `o` -/
  | object_path (s : CStr)
  /-- type `g` -/
  | signature (s : CStr)
  /-- type `as` -/
  | strv (l : List CStr)
  /-- type `i` -/
  | int32 (n : Int)
  /-- type `x` -/
  | int64 (n : Int)
  /-- type `u` -/
  | uint32 (n : Nat)
  /-- any other type -/
  | other
deriving DecidableEq, Repr

/-- A value of type `a{sv}`: its entries in the order an iterator visits
them. -/
abbrev Dict := List (CStr × GVariant)

/-- `g_variant_get_string (value, NULL)`: the string of a value of type `s`,
`o` or `g`; for any other type the type check fails and `NULL` is returned. -/
def g_variant_get_string (value : GVariant) : Option CStr :=
  match value with
  | GVariant.string s => some s
  | GVariant.object_path s => some s
  | GVariant.signature s => some s
  | _ => none

/-- `g_variant_get_int32 (value)`: 0 when the type check fails. -/
def g_variant_get_int32 (value : GVariant) : Int :=
  match value with
  | GVariant.int32 n => n
  | _ => 0

/-- `g_variant_get_int64 (value)`: 0 when the type check fails. -/
def g_variant_get_int64 (value : GVariant) : Int :=
  match value with
  | GVariant.int64 n => n
  | _ => 0

/-- Conversion of a `gint64` to `guint64`. -/
def to_guint64 (x : Int) : Nat := (x % (2 ^ 64 : Int)).toNat

/-- Conversion of a `guint64` to `guint32`. -/
def to_guint32 (x : Nat) : Nat := x % 2 ^ 32

/-- `g_strjoinv (separator, str_array)`. -/
def g_strjoinv (separator : CStr) (str_array : List CStr) : CStr :=
  separator.intercalate str_array

/-- The body of the loop of `ol_metadata_new_from_variant` for one entry. -/
def import_entry (metadata : OlMetadata) (key : CStr) (value : GVariant) : OlMetadata :=
  if key = utf8 "xesam:title" then
    ol_metadata_set_title metadata (g_variant_get_string value)
  else if key = utf8 "xesam:artist" then
    match value with
    | GVariant.string _ => ol_metadata_set_artist metadata (g_variant_get_string value)
    | GVariant.strv artist_list =>
      ol_metadata_set_artist metadata (some (g_strjoinv (utf8 ", ") artist_list))
    | _ => metadata
  else if key = utf8 "xesam:album" then
    ol_metadata_set_album metadata (g_variant_get_string value)
  else if key = utf8 "mpris:artUrl" then
    ol_metadata_set_art metadata (g_variant_get_string value)
  else if key = utf8 "xesam:url" then
    ol_metadata_set_uri metadata (g_variant_get_string value)
  else if key = utf8 "xesam:trackNumber" then
    ol_metadata_set_track_number metadata (g_variant_get_int32 value)
  else if key = utf8 "mpris:length" then
    ol_metadata_set_duration metadata (to_guint64 (g_variant_get_int64 value))
  else metadata

/-- The seven keys the import compares each key with. -/
def import_keys : List CStr :=
  [utf8 "xesam:title", utf8 "xesam:artist", utf8 "xesam:album", utf8 "mpris:artUrl",
   utf8 "xesam:url", utf8 "xesam:trackNumber", utf8 "mpris:length"]

/-- What the `xesam:artist` branch of the import makes of the artist: the
string, the joined list, or the old value for a value of another type. -/
def artist_from (value : GVariant) (old : Option CStr) : Option CStr :=
  match value with
  | GVariant.string s => some s
  | GVariant.strv l => some (g_strjoinv (utf8 ", ") l)
  | _ => old

/-- `ol_metadata_new_from_variant`, for a variant of type `a{sv}`. -/
def ol_metadata_new_from_variant (variant : Dict) : OlMetadata :=
  variant.foldl (fun metadata kv => import_entry metadata kv.1 kv.2) ol_metadata_new

/-- `_add_string_to_dict_builder`. -/
def _add_string_to_dict_builder (builder : Dict) (key : CStr) (value : Option CStr) : Dict :=
  match value with
  | some v => builder ++ [(key, GVariant.string v)]
  | none => builder

/-- `ol_metadata_to_variant`. -/
def ol_metadata_to_variant (metadata : OlMetadata) : Dict :=
  let builder : Dict := []
  let builder := _add_string_to_dict_builder builder (utf8 "title") metadata.title
  let builder := _add_string_to_dict_builder builder (utf8 "artist") metadata.artist
  let builder := _add_string_to_dict_builder builder (utf8 "album") metadata.album
  let builder := _add_string_to_dict_builder builder (utf8 "location") metadata.uri
  let builder := _add_string_to_dict_builder builder (utf8 "arturl") metadata.art
  let builder := builder ++
    [(utf8 "time", GVariant.uint32 (to_guint32 (metadata.duration / 1000)))]
  let builder := builder ++ [(utf8 "mtime", GVariant.uint32 (to_guint32 metadata.duration))]
  let builder :=
    if metadata.track_number > 0 then
      builder ++ [(utf8 "tracknumber", GVariant.string (fmt_d metadata.track_number))]
    else builder
  builder

/-! ## Definitions used by the statements and proofs -/

/-- The seven formatted outputs of write mode, in the order they are
printed. -/
def serial_fields (metadata : OlMetadata) : List CStr :=
  [ metadata.title.getD [] ++ utf8 "\n",
    metadata.artist.getD [] ++ utf8 "\n",
    metadata.album.getD [] ++ utf8 "\n",
    fmt_d metadata.track_number ++ utf8 "\n",
    metadata.uri.getD [] ++ utf8 "\n",
    metadata.art.getD [] ++ utf8 "\n",
    fmt_u64 metadata.duration ++ utf8 "\n" ]

/-- The text format as the specification words it: seven lines, each ended
by `'\n'`, in the order title, artist, album, track number, uri, art,
duration; an absent string is an empty line. -/
def spec_serialization (m : OlMetadata) : CStr :=
  m.title.getD [] ++ utf8 "\n" ++ m.artist.getD [] ++ utf8 "\n"
    ++ m.album.getD [] ++ utf8 "\n" ++ fmt_d m.track_number ++ utf8 "\n"
    ++ m.uri.getD [] ++ utf8 "\n" ++ m.art.getD [] ++ utf8 "\n"
    ++ fmt_u64 m.duration ++ utf8 "\n"

/-- One `cnt += snprintf (buffer + cnt, count - cnt, ...)` whose formatted
output is `s`. -/
def add_output (count : Nat) (st : List Write × Int) (s : CStr) : List Write × Int :=
  add_printed count st (fun dst n => snprintf dst n s)


/-- What write mode keeps true of the first `count` bytes of the buffer
while the text `acc` has been printed so far: the bytes that fit (all but the
last byte of the buffer) are those of `acc`, and once something has been
printed a NUL follows them. -/
def BufInv (count : Nat) (acc : CStr) (mem : Mem) : Prop :=
  (∀ i, i < acc.length → i + 1 < count → mem i = acc.getD i 0) ∧
  (0 < count → 0 < acc.length → mem (min acc.length (count - 1)) = 0)

/-- A sample record: title `abcdef`, artist `X`, art `art`, duration 1000, the
other strings absent and the track number unknown. -/
def sample_metadata : OlMetadata :=
  { title := some (utf8 "abcdef"), artist := some (utf8 "X"), album := none,
    track_number := -1, uri := none, art := some (utf8 "art"), duration := 1000 }

/-- A destination memory filled with the byte 255. -/
def blank_memory : Mem := fun _ => 255

/-- The text a destination holds after write mode with a `count`-byte buffer
that was blank before: the bytes of the buffer before its first NUL. -/
def serialized_text (m : OlMetadata) (count : Nat) : CStr :=
  cstrAt (bufferBytes (replay blank_memory
    (ol_metadata_serialize m (some blank_memory) count).writes) count) 0

/-- White-space trimming as `g_strstrip` defines it: leading and trailing
bytes for which `g_ascii_isspace` holds are removed. -/
def strip (s : CStr) : CStr :=
  (s.dropWhile g_ascii_isspace).rdropWhile g_ascii_isspace

/-! ## Serialization: lemmas -/

theorem utf8_nl : utf8 "\n" = [10] := by decide

theorem utf8_empty : utf8 "" = [] := by decide

theorem internal_snprint_eq (val : Option CStr) :
    (fun dst n => internal_snprint dst n val) =
      (fun dst n => snprintf dst n (val.getD [] ++ utf8 "\n")) := by
  cases val <;> simp [internal_snprint, utf8_empty]

theorem serialize_write_eq (m : OlMetadata) (mem : Mem) (count : Nat) :
    ol_metadata_serialize m (some mem) count =
      { ret := (terminate count ((serial_fields m).foldl (add_output count) ([], 0))).2,
        writes := (terminate count ((serial_fields m).foldl (add_output count) ([], 0))).1 } := by
  simp only [ol_metadata_serialize, serial_fields, List.foldl_cons, List.foldl_nil,
    add_output, internal_snprint_eq]

theorem to_size_t_natCast (n : Nat) : to_size_t (n : Int) = n % SIZE_MOD := by
  unfold to_size_t
  rw [← Int.natCast_mod]
  exact Int.toNat_natCast _

theorem size_sub_of_lt (count n : Nat) (hc : count < SIZE_MOD) (hn : n < count) :
    size_sub count (n : Int) = count - n := by
  unfold size_sub
  rw [to_size_t_natCast]
  unfold SIZE_MOD at *
  omega

theorem size_sub_self (count : Nat) :
    size_sub count (count : Int) = 0 := by
  unfold size_sub
  rw [to_size_t_natCast]
  unfold SIZE_MOD at *
  omega

theorem replay_append (mem : Mem) (a b : List Write) :
    replay mem (a ++ b) = replay (replay mem a) b := by
  induction a generalizing mem with
  | nil => rfl
  | cons w a ih => obtain ⟨i, v⟩ := w; exact ih _

theorem replay_untouched (mem : Mem) (ws : List Write) (j : Nat)
    (h : ∀ w ∈ ws, w.1 ≠ j) : replay mem ws j = mem j := by
  induction ws generalizing mem with
  | nil => rfl
  | cons w ws ih =>
    obtain ⟨i, v⟩ := w
    simp only [replay]
    rw [ih _ (fun w hw => h w (List.mem_cons_of_mem _ hw))]
    have : i ≠ j := h (i, v) (List.mem_cons_self _ _)
    simp [Ne.symm this]

theorem mem_storeBytes (d : Nat) (bs : List Nat) (w : Write) (hw : w ∈ storeBytes d bs) :
    d ≤ w.1 ∧ w.1 < d + bs.length := by
  induction bs generalizing d with
  | nil => simp [storeBytes] at hw
  | cons b bs ih =>
    simp only [storeBytes, List.mem_cons] at hw
    rcases hw with rfl | hw
    · simp
    · have := ih (d + 1) hw
      simp only [List.length_cons]
      omega

theorem replay_storeBytes (mem : Mem) (d : Nat) (bs : List Nat) (j : Nat) :
    replay mem (storeBytes d bs) j =
      if d ≤ j ∧ j < d + bs.length then bs.getD (j - d) 0 else mem j := by
  induction bs generalizing mem d with
  | nil =>
    have h : ¬ (d ≤ j ∧ j < d + ([] : List Nat).length) := by simp
    rw [if_neg h]
    rfl
  | cons b bs ih =>
    simp only [storeBytes, replay, ih, List.length_cons]
    by_cases h1 : d + 1 ≤ j ∧ j < d + 1 + bs.length
    · have h2 : d ≤ j ∧ j < d + (bs.length + 1) := by omega
      have h3 : j - d = (j - (d + 1)) + 1 := by omega
      rw [if_pos h1, if_pos h2, h3]
      simp
    · rw [if_neg h1]
      by_cases h4 : j = d
      · subst h4
        simp
      · have h2 : ¬ (d ≤ j ∧ j < d + (bs.length + 1)) := by omega
        rw [if_neg h2, if_neg h4]

theorem mem_snprintf (d n : Nat) (s : CStr) (w : Write) (hw : w ∈ (snprintf d n s).1) :
    d ≤ w.1 := by
  unfold snprintf at hw
  split at hw
  · simp at hw
  · simp only [List.mem_append, List.mem_singleton] at hw
    rcases hw with hw | rfl
    · exact (mem_storeBytes _ _ _ hw).1
    · simp

theorem snprintf_ret (dst n : Nat) (s : CStr) : (snprintf dst n s).2 = s.length := by
  unfold snprintf; split <;> rfl

theorem getD_take_of_lt (s : List Nat) (k n : Nat) (h : k < n) :
    (s.take n).getD k 0 = s.getD k 0 := by
  simp [List.getD_eq_getElem?_getD, List.getElem?_take, h]

theorem getD_append_left (a b : List Nat) (i : Nat) (h : i < a.length) :
    (a ++ b).getD i 0 = a.getD i 0 := by
  simp [List.getD_eq_getElem?_getD, List.getElem?_append_left h]

theorem getD_append_right (a b : List Nat) (i : Nat) (h : a.length ≤ i) :
    (a ++ b).getD i 0 = b.getD (i - a.length) 0 := by
  simp [List.getD_eq_getElem?_getD, List.getElem?_append_right h]

theorem add_output_inv (count : Nat) (hc : count < SIZE_MOD) (mem0 : Mem)
    (acc : CStr) (ws : List Write) (s : CStr)
    (h : BufInv count acc (replay mem0 ws)) :
    (add_output count (ws, (acc.length : Int)) s).2 = ((acc ++ s).length : Int) ∧
      BufInv count (acc ++ s) (replay mem0 (add_output count (ws, (acc.length : Int)) s).1) := by
  obtain ⟨h1, h2⟩ := h
  refine ⟨by simp [add_output, add_printed, snprintf_ret], ?_⟩
  simp only [add_output, add_printed, Int.toNat_natCast, replay_append]
  by_cases hlt : acc.length < count
  · -- the output starts inside the buffer
    rw [size_sub_of_lt count acc.length hc hlt]
    have hn : count - acc.length ≠ 0 := by omega
    simp only [snprintf, if_neg hn, replay_append, replay]
    constructor
    · intro i hi hic
      have hne : i ≠ acc.length + min s.length (count - acc.length - 1) := by
        simp only [List.length_append] at hi
        omega
      show (if i = acc.length + min s.length (count - acc.length - 1) then 0
        else replay (replay mem0 ws)
          (storeBytes acc.length (s.take (count - acc.length - 1))) i) = _
      rw [if_neg hne, replay_storeBytes]
      by_cases hia : i < acc.length
      · have hn2 : ¬ (acc.length ≤ i ∧
            i < acc.length + (s.take (count - acc.length - 1)).length) := by omega
        rw [if_neg hn2, getD_append_left _ _ _ hia]
        exact h1 i hia hic
      · have hp : acc.length ≤ i ∧
            i < acc.length + (s.take (count - acc.length - 1)).length := by
          simp only [List.length_append] at hi
          simp only [List.length_take]
          omega
        rw [if_pos hp, getD_append_right _ _ _ (by omega), getD_take_of_lt _ _ _ (by omega)]
    · intro _ _
      have he : min (acc ++ s).length (count - 1) =
          acc.length + min s.length (count - acc.length - 1) := by
        simp only [List.length_append]
        omega
      rw [he]
      simp
  · -- the running total has reached or passed the end of the buffer
    have hun : ∀ j, j < count →
        replay (replay mem0 ws)
          (snprintf acc.length (size_sub count (acc.length : Int)) s).1 j
          = replay mem0 ws j := by
      intro j hj
      apply replay_untouched
      intro w hw
      have := mem_snprintf _ _ _ _ hw
      omega
    constructor
    · intro i hi hic
      have hia : i < acc.length := by omega
      rw [hun i (by omega), getD_append_left _ _ _ hia]
      exact h1 i hia hic
    · intro hc0 _
      have he : min (acc ++ s).length (count - 1) = min acc.length (count - 1) := by
        simp only [List.length_append]
        omega
      rw [he, hun _ (by omega)]
      exact h2 hc0 (by omega)

theorem foldl_add_output_inv (count : Nat) (hc : count < SIZE_MOD) (mem0 : Mem)
    (fs : List CStr) (acc : CStr) (ws : List Write)
    (h : BufInv count acc (replay mem0 ws)) :
    (fs.foldl (add_output count) (ws, (acc.length : Int))).2
        = ((acc ++ fs.flatten).length : Int) ∧
      BufInv count (acc ++ fs.flatten)
        (replay mem0 (fs.foldl (add_output count) (ws, (acc.length : Int))).1) := by
  induction fs generalizing acc ws with
  | nil => simpa using h
  | cons f fs ih =>
    obtain ⟨e, hinv⟩ := add_output_inv count hc mem0 acc ws f h
    have hpair : add_output count (ws, (acc.length : Int)) f =
        ((add_output count (ws, (acc.length : Int)) f).1, ((acc ++ f).length : Int)) := by
      rw [← e]
    simp only [List.foldl_cons, List.flatten_cons]
    rw [hpair, ← List.append_assoc]
    exact ih (acc ++ f) _ hinv

theorem to_size_t_le (n : Nat) : to_size_t (n : Int) ≤ n := by
  rw [to_size_t_natCast]
  exact Nat.mod_le _ _

theorem terminate_inv (count : Nat) (mem0 : Mem) (acc : CStr) (ws : List Write)
    (h : BufInv count acc (replay mem0 ws)) :
    (terminate count (ws, (acc.length : Int))).2 = (acc.length : Int) ∧
    (∀ i, i < acc.length → i + 1 < count →
      replay mem0 (terminate count (ws, (acc.length : Int))).1 i = acc.getD i 0) ∧
    (0 < count →
      replay mem0 (terminate count (ws, (acc.length : Int))).1
        (min acc.length (count - 1)) = 0) := by
  obtain ⟨h1, h2⟩ := h
  have hle := to_size_t_le acc.length
  unfold terminate
  by_cases ha : to_size_t (acc.length : Int) < count
  · simp only [if_pos ha, Int.toNat_natCast, replay_append, replay, true_and]
    constructor
    · intro i hi hic
      have hne : i ≠ acc.length := by omega
      simp only [if_neg hne]
      exact h1 i hi hic
    · intro hc0
      by_cases hl : acc.length < count
      · have he : min acc.length (count - 1) = acc.length := by omega
        simp [he]
      · have hne : min acc.length (count - 1) ≠ acc.length := by omega
        simp only [if_neg hne]
        exact h2 hc0 (by omega)
  · by_cases hc0 : count > 0
    · simp only [if_neg ha, if_pos hc0, replay_append, replay, true_and]
      constructor
      · intro i hi hic
        have hne : i ≠ count - 1 := by omega
        simp only [if_neg hne]
        exact h1 i hi hic
      · intro _
        have he : min acc.length (count - 1) = count - 1 := by omega
        simp [he]
    · simp only [if_neg ha, if_neg hc0, true_and]
      exact ⟨h1, fun h => absurd h hc0⟩

theorem serial_fields_flatten (m : OlMetadata) :
    (serial_fields m).flatten = spec_serialization m := by
  simp [serial_fields, spec_serialization]

theorem serialize_write_spec (m : OlMetadata) (mem0 : Mem) (count : Nat)
    (hc : count < SIZE_MOD) :
    (ol_metadata_serialize m (some mem0) count).ret = ((spec_serialization m).length : Int) ∧
    (∀ i, i < (spec_serialization m).length → i + 1 < count →
      replay mem0 (ol_metadata_serialize m (some mem0) count).writes i
        = (spec_serialization m).getD i 0) ∧
    (0 < count →
      replay mem0 (ol_metadata_serialize m (some mem0) count).writes
        (min (spec_serialization m).length (count - 1)) = 0) := by
  have h0 : BufInv count [] (replay mem0 []) :=
    ⟨fun i hi => absurd hi (by simp), fun _ h => absurd h (by simp)⟩
  obtain ⟨e, hinv⟩ := foldl_add_output_inv count hc mem0 (serial_fields m) [] [] h0
  simp only [List.nil_append, List.length_nil, Nat.cast_zero, serial_fields_flatten] at e hinv
  have hpair : (serial_fields m).foldl (add_output count) ([], 0) =
      (((serial_fields m).foldl (add_output count) ([], 0)).1,
        ((spec_serialization m).length : Int)) := by
    rw [← e]
  rw [serialize_write_eq]
  simp only
  rw [hpair]
  exact terminate_inv count mem0 _ _ hinv

theorem bufferBytes_length (mem : Mem) (n : Nat) : (bufferBytes mem n).length = n := by
  simp [bufferBytes]

theorem bufferBytes_eq (mem : Mem) (l : List Nat)
    (h : ∀ i, i < l.length → mem i = l.getD i 0) : bufferBytes mem l.length = l := by
  apply List.ext_getElem (by simp [bufferBytes])
  intro i h1 h2
  simp only [bufferBytes, List.getElem_map, List.getElem_range]
  rw [h i h2, List.getD_eq_getElem _ _ h2]

theorem bufferBytes_mono (mem : Mem) (n count : Nat) (h : n ≤ count) :
    bufferBytes mem n <+: bufferBytes mem count := by
  obtain ⟨d, rfl⟩ := Nat.exists_eq_add_of_le h
  unfold bufferBytes
  rw [List.range_add, List.map_append]
  exact List.prefix_append _ _

theorem bufferBytes_succ (mem : Mem) (n : Nat) :
    bufferBytes mem (n + 1) = bufferBytes mem n ++ [mem n] := by
  simp [bufferBytes, List.range_succ]

theorem takeWhile_append_stop (p : Nat → Bool) (X : List Nat) (b : Nat) (R : List Nat)
    (hb : p b = false) : (X ++ b :: R).takeWhile p <+: X := by
  induction X with
  | nil => simp [List.takeWhile_cons, hb]
  | cons x X ih =>
    simp only [List.cons_append, List.takeWhile_cons]
    split
    · exact (List.cons_prefix_cons).2 ⟨rfl, ih⟩
    · exact List.nil_prefix

/-! ## Serialization: theorems -/

/-- Claim C2, evaluated on a fresh record: size-query mode returns 7, the
bytes of the title, artist, album, track-number and uri lines only, while
write mode with a 64-byte buffer returns 10 and stores the seven lines
followed by a NUL; the art and duration lines are missing from the size. -/
theorem size_query_omits_art_and_duration :
    (ol_metadata_serialize ol_metadata_new none 0).ret = 7 ∧
    (ol_metadata_serialize ol_metadata_new (some blank_memory) 64).ret = 10 ∧
    bufferBytes (replay blank_memory
      (ol_metadata_serialize ol_metadata_new (some blank_memory) 64).writes) 11
      = utf8 "\n\n\n-1\n\n\n0\n" ++ [0] := by
  decide

/-- Claim C3, evaluated on the sample record with a 3-byte buffer: the title
is clipped to the buffer, the running total becomes 7, the `size_t`
difference `3 - 7` wraps around to `2 ^ 64 - 4`, and the artist line is then
stored at offsets 7, 8 and 9, past the end of the buffer. -/
theorem write_mode_stores_past_count :
    size_sub 3 7 = 2 ^ 64 - 4 ∧
    (7, 88) ∈ (ol_metadata_serialize sample_metadata (some blank_memory) 3).writes ∧
    (ol_metadata_serialize sample_metadata (some blank_memory) 3).writes.any
      (fun w => decide (3 ≤ w.1)) = true := by
  decide

/-- With a buffer longer than the full serialization nothing is clipped. -/
theorem write_fits (m : OlMetadata) (mem0 : Mem) (count : Nat)
    (hc : count < SIZE_MOD) (hL : (spec_serialization m).length < count) :
    bufferBytes (replay mem0 (ol_metadata_serialize m (some mem0) count).writes)
        (spec_serialization m).length = spec_serialization m ∧
      replay mem0 (ol_metadata_serialize m (some mem0) count).writes
        (spec_serialization m).length = 0 := by
  obtain ⟨_, h1, h2⟩ := serialize_write_spec m mem0 count hc
  constructor
  · exact bufferBytes_eq _ _ (fun i hi => h1 i hi (by omega))
  · have he : min (spec_serialization m).length (count - 1)
        = (spec_serialization m).length := by omega
    have := h2 (by omega)
    rwa [he] at this

/-- Claim C6: with a buffer longer than the full serialization, write mode
leaves the seven lines (title, artist, album, track number, uri, art,
duration, each ended by a newline, an absent string as an empty line, the
numbers in decimal) in the first bytes of the buffer and a NUL right after
them. -/
theorem serialize_write_full (m : OlMetadata) (mem0 : Mem) (count : Nat)
    (hc : count < SIZE_MOD) (hL : (spec_serialization m).length < count) :
    bufferBytes (replay mem0 (ol_metadata_serialize m (some mem0) count).writes)
        (spec_serialization m).length = spec_serialization m ∧
      replay mem0 (ol_metadata_serialize m (some mem0) count).writes
        (spec_serialization m).length = 0 :=
  write_fits m mem0 count hc hL

/-- Witness for claim C6: the sample record in a 100-byte buffer. -/
theorem serialize_write_full_witness :
    (100 < SIZE_MOD ∧ (spec_serialization sample_metadata).length < 100) ∧
    spec_serialization sample_metadata = utf8 "abcdef\nX\n\n-1\n\nart\n1000\n" ∧
    (bufferBytes (replay blank_memory
        (ol_metadata_serialize sample_metadata (some blank_memory) 100).writes)
        (spec_serialization sample_metadata).length = spec_serialization sample_metadata ∧
      replay blank_memory
        (ol_metadata_serialize sample_metadata (some blank_memory) 100).writes
        (spec_serialization sample_metadata).length = 0) :=
  ⟨by decide, by decide,
    serialize_write_full sample_metadata blank_memory 100 (by decide) (by decide)⟩

/-- Claim C7: write mode returns the length of the full serialization
whatever the size of the buffer, and the buffer holds the whole text with
its terminating NUL exactly when that value is below `count`; the output is
truncated exactly when the value returned is at least `count`. -/
theorem serialize_write_ret (m : OlMetadata) (mem0 : Mem) (count : Nat)
    (hc : count < SIZE_MOD) :
    (ol_metadata_serialize m (some mem0) count).ret
        = ((spec_serialization m).length : Int) ∧
      ((count : Int) ≤ (ol_metadata_serialize m (some mem0) count).ret ↔
        ¬ (spec_serialization m ++ [0] <+:
          bufferBytes (replay mem0 (ol_metadata_serialize m (some mem0) count).writes)
            count)) := by
  obtain ⟨hret, _, _⟩ := serialize_write_spec m mem0 count hc
  refine ⟨hret, ?_⟩
  rw [hret]
  constructor
  · intro hle hpre
    have := hpre.length_le
    simp only [List.length_append, List.length_singleton, bufferBytes_length] at this
    omega
  · intro hn
    by_contra hlt
    apply hn
    have hL : (spec_serialization m).length < count := by omega
    obtain ⟨hb, hz⟩ := write_fits m mem0 count hc hL
    have hp := bufferBytes_mono
      (replay mem0 (ol_metadata_serialize m (some mem0) count).writes)
      ((spec_serialization m).length + 1) count (by omega)
    rwa [bufferBytes_succ, hb, hz] at hp

/-- Witness for claim C7: the sample record in a 9-byte buffer;
23 is returned and the output is truncated. -/
theorem serialize_write_ret_witness :
    9 < SIZE_MOD ∧
    ((ol_metadata_serialize sample_metadata (some blank_memory) 9).ret
        = ((spec_serialization sample_metadata).length : Int) ∧
      (((9 : Nat) : Int) ≤ (ol_metadata_serialize sample_metadata (some blank_memory) 9).ret ↔
        ¬ (spec_serialization sample_metadata ++ [0] <+:
          bufferBytes (replay blank_memory
            (ol_metadata_serialize sample_metadata (some blank_memory) 9).writes) 9))) :=
  ⟨by decide, serialize_write_ret sample_metadata blank_memory 9 (by decide)⟩

/-- Claim C8: for a buffer of at least one byte, after write mode the byte at
index `min L (count - 1)` is NUL, `L` being the length of the full
serialization, and the bytes of the buffer before its first NUL are a prefix
of the full serialization. -/
theorem serialize_write_terminated (m : OlMetadata) (mem0 : Mem) (count : Nat)
    (hc : count < SIZE_MOD) (hpos : 0 < count) :
    replay mem0 (ol_metadata_serialize m (some mem0) count).writes
        (min (spec_serialization m).length (count - 1)) = 0 ∧
      (bufferBytes (replay mem0 (ol_metadata_serialize m (some mem0) count).writes)
        count).takeWhile (fun b => b != 0) <+: spec_serialization m := by
  obtain ⟨_, h1, h2⟩ := serialize_write_spec m mem0 count hc
  have hz := h2 hpos
  refine ⟨hz, ?_⟩
  obtain ⟨rest, hrest⟩ := bufferBytes_mono
    (replay mem0 (ol_metadata_serialize m (some mem0) count).writes)
    (min (spec_serialization m).length (count - 1) + 1) count (by omega)
  have hk : bufferBytes (replay mem0 (ol_metadata_serialize m (some mem0) count).writes)
      (min (spec_serialization m).length (count - 1))
      = (spec_serialization m).take (min (spec_serialization m).length (count - 1)) := by
    have hlen : ((spec_serialization m).take
        (min (spec_serialization m).length (count - 1))).length
        = min (spec_serialization m).length (count - 1) := by
      simp
    have := bufferBytes_eq
      (replay mem0 (ol_metadata_serialize m (some mem0) count).writes)
      ((spec_serialization m).take (min (spec_serialization m).length (count - 1)))
      (fun i hi => by
        rw [hlen] at hi
        rw [getD_take_of_lt _ _ _ hi]
        exact h1 i (by omega) (by omega))
    rwa [hlen] at this
  rw [← hrest, bufferBytes_succ, hk, hz, List.append_assoc, List.singleton_append]
  have hp := List.take_prefix (min (spec_serialization m).length (count - 1))
    (spec_serialization m)
  exact (takeWhile_append_stop _ _ 0 rest (by decide)).trans hp

/-- Witness for claim C8: the sample record in a 9-byte
buffer, which then holds the title line, the byte X and a NUL as byte 8. -/
theorem serialize_write_terminated_witness :
    (9 < SIZE_MOD ∧ 0 < 9) ∧
    bufferBytes (replay blank_memory
      (ol_metadata_serialize sample_metadata (some blank_memory) 9).writes) 9
      = utf8 "abcdef\nX" ++ [0] ∧
    (replay blank_memory (ol_metadata_serialize sample_metadata (some blank_memory) 9).writes
        (min (spec_serialization sample_metadata).length (9 - 1)) = 0 ∧
      (bufferBytes (replay blank_memory
        (ol_metadata_serialize sample_metadata (some blank_memory) 9).writes)
        9).takeWhile (fun b => b != 0) <+: spec_serialization sample_metadata) :=
  ⟨by decide, by decide,
    serialize_write_terminated sample_metadata blank_memory 9 (by decide) (by decide)⟩

/-! ## Deserialization: lemmas -/

theorem takeWhile_set_zero (l : List Nat) (k : Nat)
    (hk : k < (l.takeWhile (fun b => b != 0)).length) :
    (l.set k 0).takeWhile (fun b => b != 0) = (l.takeWhile (fun b => b != 0)).take k := by
  induction l generalizing k with
  | nil => simp at hk
  | cons x l ih =>
    by_cases hx : (x != 0) = true
    · simp only [List.takeWhile_cons, hx, if_true, List.length_cons] at hk ⊢
      cases k with
      | zero => simp [List.takeWhile_cons]
      | succ k =>
        simp only [List.set_cons_succ, List.takeWhile_cons, hx, if_true, List.take_succ_cons]
        rw [ih k (by omega)]
    · simp [List.takeWhile_cons, hx] at hk

theorem cstrAt_set_zero (buf : List Nat) (p k : Nat) (hk : k < (cstrAt buf p).length) :
    cstrAt (buf.set (p + k) 0) p = (cstrAt buf p).take k := by
  unfold cstrAt at *
  rw [List.drop_set, if_neg (by omega), Nat.add_sub_cancel_left]
  exact takeWhile_set_zero _ _ hk

theorem take_length_takeWhile (p : Nat → Bool) (l : List Nat) :
    l.take (l.takeWhile p).length = l.takeWhile p := by
  induction l with
  | nil => rfl
  | cons x l ih =>
    by_cases hx : p x = true
    · simp [List.takeWhile_cons, hx, ih]
    · simp [List.takeWhile_cons, hx]

/-- A second lookup from the same line start finds nothing: the first lookup
has ended the line with a NUL, or there was no newline to begin with. -/
theorem split_twice (buf : List Nat) (str : Option Nat) :
    (ol_split_a_line (ol_split_a_line buf str).1 str).2 = none := by
  cases str with
  | none => rfl
  | some p =>
    by_cases h : ((cstrAt buf p).takeWhile (fun b => b != NL)).length < strlen buf p
    · have h1 : ol_split_a_line buf (some p)
          = (buf.set (p + ((cstrAt buf p).takeWhile (fun b => b != NL)).length) 0,
             some (p + ((cstrAt buf p).takeWhile (fun b => b != NL)).length + 1)) := by
        simp only [ol_split_a_line, if_pos h]
      rw [h1]
      simp only [ol_split_a_line, strlen]
      rw [cstrAt_set_zero buf p _ h, take_length_takeWhile, List.takeWhile_idem]
      simp
    · have h1 : ol_split_a_line buf (some p) = (buf, none) := by
        simp only [ol_split_a_line, if_neg h]
      rw [h1]
      simp only [ol_split_a_line, if_neg h]

theorem deserialize_lines_ret (buffer : List Nat) : (deserialize_lines buffer).ret = 0 := by
  unfold deserialize_lines
  dsimp only
  generalize ol_split_a_line buffer (some 0) = r1
  obtain ⟨b1, _ | a1⟩ := r1
  · simp [ol_split_a_line]
  dsimp only [Option.isNone]
  generalize ol_split_a_line b1 (some a1) = r2
  obtain ⟨b2, _ | a2⟩ := r2
  · simp [ol_split_a_line]
  dsimp only [Option.isNone]
  generalize ol_split_a_line b2 (some a2) = r3
  obtain ⟨b3, _ | a3⟩ := r3
  · simp [ol_split_a_line]
  dsimp only [Option.isNone]
  have h5 := split_twice b3 (some a3)
  generalize ol_split_a_line b3 (some a3) = r4 at h5 ⊢
  obtain ⟨b4, _ | a4⟩ := r4
  · simp [ol_split_a_line]
  dsimp only [Option.isNone] at h5 ⊢
  generalize ol_split_a_line b4 (some a3) = r5 at h5 ⊢
  obtain ⟨b5, a5⟩ := r5
  dsimp only at h5
  subst h5
  simp [ol_split_a_line]

/-- The lookup for the art never finds a line: when it is reached it starts
from the track-number line, which the lookup before it has ended. -/
theorem deserialize_lines_art (buffer : List Nat) : (deserialize_lines buffer).art = none := by
  unfold deserialize_lines
  dsimp only
  generalize ol_split_a_line buffer (some 0) = r1
  obtain ⟨b1, _ | a1⟩ := r1
  · simp [ol_split_a_line]
  dsimp only [Option.isNone]
  generalize ol_split_a_line b1 (some a1) = r2
  obtain ⟨b2, _ | a2⟩ := r2
  · simp [ol_split_a_line]
  dsimp only [Option.isNone]
  generalize ol_split_a_line b2 (some a2) = r3
  obtain ⟨b3, _ | a3⟩ := r3
  · simp [ol_split_a_line]
  dsimp only [Option.isNone]
  have h5 := split_twice b3 (some a3)
  generalize ol_split_a_line b3 (some a3) = r4 at h5 ⊢
  obtain ⟨b4, _ | a4⟩ := r4
  · simp [ol_split_a_line]
  dsimp only [Option.isNone] at h5 ⊢
  generalize ol_split_a_line b4 (some a3) = r5 at h5 ⊢
  obtain ⟨b5, a5⟩ := r5
  dsimp only at h5
  subst h5
  simp [ol_split_a_line]

/-- Whatever the text, the lookups fail and the record is returned as it was. -/
theorem deserialize_fails (metadata : OlMetadata) (data : CStr) :
    ol_metadata_deserialize metadata data = (0, metadata) := by
  unfold ol_metadata_deserialize
  simp [deserialize_lines_ret]

/-! ## Deserialization: theorems -/

/-- Claim C1, evaluated on the sample record: its serialization is the
seven-line text, and deserializing that text into a fresh record returns 0
and leaves the fresh record as it was, so it is not equal to the sample with
its absent strings made empty. -/
theorem round_trip_fails_on_sample :
    serialized_text sample_metadata 100 = utf8 "abcdef\nX\n\n-1\n\nart\n1000\n" ∧
    ol_metadata_deserialize ol_metadata_new (serialized_text sample_metadata 100)
      = (0, ol_metadata_new) ∧
    ol_metadata_equal ol_metadata_new
      { sample_metadata with album := some [], uri := some [] } = false := by
  decide

/-- Claim C4, evaluated on a text of seven lines: the lookups for the title,
artist, album and track number succeed, the lookup for the uri ends the
track-number line, the next lookup starts from the track-number line again
and finds no newline, and 0 is returned with the record unchanged. -/
theorem seven_lines_rejected :
    (deserialize_lines (utf8 "t\na\nb\n3\nu\nart\n1000\n" ++ [0])).uri = some 8 ∧
    (deserialize_lines (utf8 "t\na\nb\n3\nu\nart\n1000\n" ++ [0])).art = none ∧
    ol_metadata_deserialize ol_metadata_new (utf8 "t\na\nb\n3\nu\nart\n1000\n")
      = (0, ol_metadata_new) := by
  decide

/-- Claim C5: for a text with fewer than seven newline bytes,
`ol_metadata_deserialize` returns 0 and the record keeps all seven fields. -/
theorem deserialize_short_text_fails (m : OlMetadata) (data : CStr)
    (_h : data.count NL < 7) :
    ol_metadata_deserialize m data = (0, m) :=
  deserialize_fails m data

/-- Witness for claim C5: a text of six lines. -/
theorem deserialize_short_text_fails_witness :
    (utf8 "t\na\nb\n3\nu\nart\n").count NL < 7 ∧
    ol_metadata_deserialize sample_metadata (utf8 "t\na\nb\n3\nu\nart\n")
      = (0, sample_metadata) :=
  ⟨by decide, deserialize_short_text_fails sample_metadata _ (by decide)⟩

/-! ## The sanitizer: lemmas on the title's storage -/

theorem utf8_dot : utf8 "." = [46] := by decide

theorem utf8_dashdash : utf8 "--" = [45, 45] := by decide

theorem utf8_spaced_dash : utf8 " - " = [32, 45, 32] := by decide

theorem utf8_dash : utf8 "-" = [45] := by decide

theorem takeWhile_nonzero (s : List Nat) (hs : 0 ∉ s) (rest : List Nat) :
    (s ++ 0 :: rest).takeWhile (fun b => b != 0) = s := by
  rw [List.takeWhile_append_of_pos]
  · simp [List.takeWhile_cons]
  · intro a ha
    have : a ≠ 0 := fun h => hs (h ▸ ha)
    simpa using this

/-- The string at the end of `pre` in a buffer `pre ++ s ++ 0 :: post`. -/
theorem cstrAt_frame (pre s post : List Nat) (hs : 0 ∉ s) :
    cstrAt (pre ++ s ++ 0 :: post) pre.length = s := by
  unfold cstrAt
  rw [List.append_assoc, List.drop_left]
  exact takeWhile_nonzero s hs post

theorem g_strchomp_loop_frame (pre t : List Nat) :
    ∀ rest : List Nat, ∃ rest', g_strchomp_loop (pre ++ t ++ 0 :: rest) pre.length t.length
      = pre ++ t.rdropWhile g_ascii_isspace ++ 0 :: rest' := by
  induction t using List.reverseRecOn with
  | nil => intro rest; exact ⟨rest, by simp [g_strchomp_loop]⟩
  | append_singleton t c ih =>
    intro rest
    have hlen : (t ++ [c]).length = t.length + 1 := by simp
    have hget : (pre ++ (t ++ [c]) ++ 0 :: rest).getD (pre.length + t.length) 0 = c := by
      have e : pre ++ (t ++ [c]) ++ 0 :: rest = (pre ++ t) ++ c :: 0 :: rest := by simp
      rw [e, List.getD_eq_getElem?_getD,
        List.getElem?_append_right (by simp)]
      simp
    rw [hlen]
    unfold g_strchomp_loop
    rw [hget]
    by_cases hc : g_ascii_isspace c = true
    · rw [if_pos hc, List.rdropWhile_concat_pos _ _ _ hc]
      have e : (pre ++ (t ++ [c]) ++ 0 :: rest).set (pre.length + t.length) 0
          = pre ++ t ++ 0 :: 0 :: rest := by
        have e1 : pre ++ (t ++ [c]) ++ 0 :: rest = (pre ++ t) ++ c :: 0 :: rest := by simp
        rw [e1, List.set_append_right _ _ (by simp)]
        simp
      rw [e]
      exact ih (0 :: rest)
    · rw [if_neg hc, List.rdropWhile_concat_neg _ _ _ hc]
      exact ⟨rest, rfl⟩

theorem not_mem_dropWhile (s : List Nat) (hs : 0 ∉ s) (p : Nat → Bool) :
    0 ∉ s.dropWhile p :=
  fun h => hs ((List.dropWhile_suffix p).subset h)

theorem not_mem_strip (s : List Nat) (hs : 0 ∉ s) : 0 ∉ strip s := by
  intro h
  have hp := List.rdropWhile_prefix g_ascii_isspace (s.dropWhile g_ascii_isspace)
  exact not_mem_dropWhile s hs _ (hp.subset h)

theorem g_strchug_frame (pre s post : List Nat) (hs : 0 ∉ s) :
    ∃ post', g_strchug (pre ++ s ++ 0 :: post) pre.length
      = pre ++ s.dropWhile g_ascii_isspace ++ 0 :: post' := by
  have hsplit : pre ++ s ++ 0 :: post
      = (pre ++ s.takeWhile g_ascii_isspace) ++ s.dropWhile g_ascii_isspace ++ 0 :: post := by
    calc pre ++ s ++ 0 :: post
        = pre ++ (s.takeWhile g_ascii_isspace ++ s.dropWhile g_ascii_isspace) ++ 0 :: post := by
          rw [List.takeWhile_append_dropWhile]
      _ = _ := by simp only [List.append_assoc]
  have hstart : pre.length + (s.takeWhile g_ascii_isspace).length
      = (pre ++ s.takeWhile g_ascii_isspace).length := by simp
  unfold g_strchug memmove strlen
  dsimp only
  rw [cstrAt_frame pre s post hs, hstart]
  refine ⟨(pre ++ s ++ 0 :: post).drop
    (pre.length + ((cstrAt (pre ++ s ++ 0 :: post)
      (pre ++ s.takeWhile g_ascii_isspace).length).length + 1)), ?_⟩
  have h1 : (pre ++ s ++ 0 :: post).take pre.length = pre := by
    rw [List.append_assoc, List.take_left]
  have h2 : cstrAt (pre ++ s ++ 0 :: post) (pre ++ s.takeWhile g_ascii_isspace).length
      = s.dropWhile g_ascii_isspace := by
    rw [hsplit]
    exact cstrAt_frame _ _ _ (not_mem_dropWhile s hs _)
  have h3 : ((pre ++ s ++ 0 :: post).drop (pre ++ s.takeWhile g_ascii_isspace).length).take
      ((s.dropWhile g_ascii_isspace).length + 1) = s.dropWhile g_ascii_isspace ++ [0] := by
    rw [hsplit, List.append_assoc, List.drop_left]
    have e : s.dropWhile g_ascii_isspace ++ 0 :: post
        = (s.dropWhile g_ascii_isspace ++ [0]) ++ post := by simp
    rw [e]
    exact List.take_left' (by simp)
  rw [h1, h2, h3]
  simp

/-- What `g_strstrip` does to a string that sits after `pre` in a buffer:
the string becomes its trimmed form, still NUL-terminated, and the bytes
before it are kept. -/
theorem g_strstrip_frame (pre s post : List Nat) (hs : 0 ∉ s) :
    ∃ post', g_strstrip (pre ++ s ++ 0 :: post) pre.length
      = pre ++ strip s ++ 0 :: post' := by
  obtain ⟨post1, h1⟩ := g_strchug_frame pre s post hs
  unfold g_strstrip g_strchomp strlen
  rw [h1, cstrAt_frame _ _ _ (not_mem_dropWhile s hs _)]
  exact g_strchomp_loop_frame pre _ post1

/-! ## The sanitizer: lemmas on substring search -/

theorem findSub_at_start (needle l : List Nat) (h : needle <+: l) :
    findSub needle l = some 0 := by
  cases l <;> simp [findSub, h]

theorem findSub_cons_skip (needle : List Nat) (c : Nat) (cs : List Nat)
    (h : ¬ needle <+: c :: cs) :
    findSub needle (c :: cs) = (findSub needle cs).map (fun i => i + 1) := by
  simp [findSub, h]

/-- The search finds the first occurrence. -/
theorem findSub_first (needle X Y : List Nat)
    (hmin : ∀ X' Y', X ++ needle ++ Y = X' ++ needle ++ Y' → X.length ≤ X'.length) :
    findSub needle (X ++ needle ++ Y) = some X.length := by
  induction X with
  | nil => exact findSub_at_start _ _ ⟨Y, by simp⟩
  | cons x X ih =>
    have hnp : ¬ needle <+: x :: (X ++ needle ++ Y) := by
      rintro ⟨Y', hY'⟩
      have := hmin [] Y' (by simp [hY'])
      simp at this
    have hmin' : ∀ X' Y', X ++ needle ++ Y = X' ++ needle ++ Y' → X.length ≤ X'.length := by
      intro X' Y' h
      have := hmin (x :: X') Y' (by simp [← h])
      simpa using this
    simp only [List.cons_append]
    rw [findSub_cons_skip _ _ _ hnp, ih hmin']
    rfl

theorem findSub_le (needle X Y : List Nat) :
    ∃ k, findSub needle (X ++ needle ++ Y) = some k ∧ k ≤ X.length := by
  induction X with
  | nil => exact ⟨0, findSub_at_start _ _ ⟨Y, by simp⟩, Nat.le_refl _⟩
  | cons x X ih =>
    by_cases hp : needle <+: x :: (X ++ needle ++ Y)
    · exact ⟨0, findSub_at_start _ _ hp, Nat.zero_le _⟩
    · obtain ⟨k, hk, hle⟩ := ih
      refine ⟨k + 1, ?_, by simpa using hle⟩
      simp only [List.cons_append]
      rw [findSub_cons_skip _ _ _ hp, hk]
      rfl

/-- What the search returns is the first occurrence: no occurrence starts
before it. -/
theorem first_of_findSub (needle X Y : List Nat)
    (h : findSub needle (X ++ needle ++ Y) = some X.length) :
    ∀ X' Y', X ++ needle ++ Y = X' ++ needle ++ Y' → X.length ≤ X'.length := by
  intro X' Y' e
  obtain ⟨k, hk, hle⟩ := findSub_le needle X' Y'
  rw [← e, h] at hk
  have : X.length = k := Option.some.inj hk
  omega

/-- The search fails on a string that does not contain the needle. -/
theorem findSub_none (needle l : List Nat) (h : ¬ needle <:+: l) :
    findSub needle l = none := by
  induction l with
  | nil =>
    have : ¬ needle <+: [] := fun hp => h hp.isInfix
    simp [findSub, this]
  | cons c cs ih =>
    have hnp : ¬ needle <+: c :: cs := fun hp => h hp.isInfix
    have hni : ¬ needle <:+: cs := fun hi => h (hi.trans (List.suffix_cons c cs).isInfix)
    rw [findSub_cons_skip _ _ _ hnp, ih hni]
    rfl

theorem findSub_single (c : Nat) (X Y : List Nat) (hc : c ∉ X) :
    findSub [c] (X ++ c :: Y) = some X.length := by
  have := findSub_first [c] X Y (by
    intro X' Y' h
    by_contra hlt
    push_neg at hlt
    apply hc
    have h1 : (X ++ [c] ++ Y)[X'.length]? = some c := by
      rw [h, List.append_assoc, List.getElem?_append_right (Nat.le_refl _)]
      simp
    rw [List.append_assoc, List.getElem?_append_left hlt] at h1
    exact List.getElem?_mem h1)
  simpa using this

theorem strstr_frame (pre s post needle : List Nat) (hs : 0 ∉ s) :
    strstr (pre ++ s ++ 0 :: post) pre.length needle
      = (findSub needle s).map (fun i => pre.length + i) := by
  unfold strstr
  rw [cstrAt_frame pre s post hs]

/-! ## The sanitizer: one separator -/

/-- A separator that does not occur is passed over, the storage untouched. -/
theorem split_loop_skip (pre s post sep : List Nat) (seps : List CStr) (hs : 0 ∉ s)
    (hnone : findSub sep s = none) :
    split_loop (pre ++ s ++ 0 :: post) pre.length (sep :: seps)
      = split_loop (pre ++ s ++ 0 :: post) pre.length seps := by
  rw [split_loop, strstr_frame pre s post sep hs, hnone]
  rfl

/-- A separator found at `X ++ sep ++ Y` with a non-blank right-hand side
ends the loop: `new_artist` is the old `new_title`, where `X` now stands,
and `new_title` is where the trimmed `Y` stands. -/
theorem split_loop_hit (pre X sep Y post : List Nat) (seps : List CStr)
    (hs : 0 ∉ X ++ sep ++ Y) (hsep : sep ≠ [])
    (hfind : findSub sep (X ++ sep ++ Y) = some X.length) (hY : strip Y ≠ []) :
    ∃ buf, split_loop (pre ++ (X ++ sep ++ Y) ++ 0 :: post) pre.length (sep :: seps)
        = (buf, pre.length + X.length + sep.length, ArtistPtr.in_title pre.length) ∧
      cstrAt buf pre.length = X ∧
      cstrAt buf (pre.length + X.length + sep.length) = strip Y := by
  have hX : 0 ∉ X := fun h => hs (by simp [h])
  have hY0 : 0 ∉ Y := fun h => hs (by simp [h])
  have hbuf : pre ++ (X ++ sep ++ Y) ++ 0 :: post = (pre ++ X ++ sep) ++ Y ++ 0 :: post := by
    simp only [List.append_assoc]
  have hlen : pre.length + X.length + sep.length = (pre ++ X ++ sep).length := by
    simp [Nat.add_assoc]
  obtain ⟨post1, h1⟩ := g_strstrip_frame (pre ++ X ++ sep) Y post hY0
  have hstr : strlen (pre ++ X ++ sep ++ strip Y ++ 0 :: post1)
      (pre ++ X ++ sep).length = (strip Y).length := by
    unfold strlen
    rw [cstrAt_frame _ _ _ (not_mem_strip Y hY0)]
  have hpos : (strip Y).length > 0 := List.length_pos.2 hY
  obtain ⟨c, sep', rfl⟩ := List.exists_cons_of_ne_nil hsep
  refine ⟨pre ++ X ++ 0 :: (sep' ++ strip Y ++ 0 :: post1), ?_, ?_, ?_⟩
  · rw [split_loop, strstr_frame pre _ post _ hs, hfind]
    simp only [Option.map_some']
    rw [hlen, hbuf, h1, hstr, if_pos hpos]
    have e : pre ++ X ++ c :: sep' ++ strip Y ++ 0 :: post1
        = (pre ++ X) ++ c :: (sep' ++ strip Y ++ 0 :: post1) := by simp
    rw [e, List.set_append_right _ _ (by simp)]
    simp
  · exact cstrAt_frame pre X _ hX
  · have e : pre ++ X ++ 0 :: (sep' ++ strip Y ++ 0 :: post1)
        = (pre ++ X ++ 0 :: sep') ++ strip Y ++ 0 :: post1 := by simp
    have hl : pre.length + X.length + (c :: sep').length
        = (pre ++ X ++ 0 :: sep').length := by simp [Nat.add_assoc]
    rw [e, hl]
    exact cstrAt_frame _ _ _ (not_mem_strip Y hY0)

/-! ## The sanitizer: the two steps -/

theorem findSub_dashdash_none (A S : List Nat) (hA : 45 ∉ A)
    (hS : ¬ ([45, 45] : List Nat) <:+: S) :
    findSub [45, 45] (A ++ [32, 45, 32] ++ S) = none := by
  induction A with
  | nil =>
    show findSub [45, 45] (32 :: 45 :: 32 :: S) = none
    rw [findSub_cons_skip _ _ _ (by simp),
      findSub_cons_skip _ _ _ (by simp),
      findSub_cons_skip _ _ _ (by simp), findSub_none _ _ hS]
    rfl
  | cons a A ih =>
    have ha : a ≠ 45 := fun h => hA (by simp [h])
    have hA' : 45 ∉ A := fun h => hA (by simp [h])
    have hnp : ¬ ([45, 45] : List Nat) <+: a :: (A ++ [32, 45, 32] ++ S) := by
      simp [Ne.symm ha]
    simp only [List.cons_append]
    rw [findSub_cons_skip _ _ _ hnp, ih hA']
    rfl

theorem findSub_spaced_dash (A S : List Nat) (hA : 45 ∉ A) :
    findSub [32, 45, 32] (A ++ [32, 45, 32] ++ S) = some A.length := by
  induction A with
  | nil => simp [findSub]
  | cons a A ih =>
    have hA' : 45 ∉ A := fun h => hA (by simp [h])
    have hnp : ¬ ([32, 45, 32] : List Nat) <+: a :: (A ++ [32, 45, 32] ++ S) := by
      cases A with
      | nil => simp
      | cons b B =>
        have hb : b ≠ 45 := fun h => hA (by simp [h])
        simp [Ne.symm hb]
    simp only [List.cons_append]
    rw [findSub_cons_skip _ _ _ hnp, ih hA']
    rfl

theorem strip_track_number_no_dot (T : CStr) (h0 : 0 ∉ T) (hdot : ¬ utf8 "." <:+: T) :
    strip_track_number (T ++ [0]) 0 = (T ++ [0], 0) := by
  have h := strstr_frame [] T [] (utf8 ".") h0
  simp only [List.nil_append, List.length_nil] at h
  rw [strip_track_number, h, findSub_none _ _ hdot]
  rfl

theorem strip_track_number_hit (P R : CStr) (hP : P ≠ [])
    (hPd : ∀ c ∈ P, g_ascii_isdigit c = true ∨ g_ascii_isspace c = true)
    (hnul : 0 ∉ R) (hR : strip R ≠ []) :
    ∃ post, strip_track_number (P ++ utf8 "." ++ R ++ [0]) 0
      = (P ++ utf8 "." ++ strip R ++ 0 :: post, (P ++ utf8 ".").length) := by
  have hP0 : 0 ∉ P := by
    intro h
    rcases hPd 0 h with h1 | h1 <;> simp [g_ascii_isdigit, g_ascii_isspace] at h1
  have hPdot : 46 ∉ P := by
    intro h
    rcases hPd 46 h with h1 | h1 <;> simp [g_ascii_isdigit, g_ascii_isspace] at h1
  have h0 : 0 ∉ P ++ utf8 "." ++ R := by
    simp only [utf8_dot, List.mem_append, List.mem_singleton, not_or]
    exact ⟨⟨hP0, by decide⟩, hnul⟩
  have hs := strstr_frame [] (P ++ utf8 "." ++ R) [] (utf8 ".") h0
  simp only [List.nil_append, List.length_nil] at hs
  have hfind : findSub (utf8 ".") (P ++ utf8 "." ++ R) = some P.length := by
    have := findSub_single 46 P R hPdot
    simpa [utf8_dot] using this
  obtain ⟨post, hstrip⟩ := g_strstrip_frame (P ++ utf8 ".") R [] hnul
  have hlen : P.length + 1 = (P ++ utf8 ".").length := by simp [utf8_dot]
  have hne : (P.length != 0) = true := by
    simpa using hP
  have hall : ((P ++ utf8 "." ++ R ++ [0]).take P.length).all
      (fun c => g_ascii_isdigit c || g_ascii_isspace c) = true := by
    rw [List.append_assoc, List.append_assoc, List.take_left]
    simpa [List.all_eq_true] using hPd
  have hpos : strlen (P ++ utf8 "." ++ strip R ++ 0 :: post) (P ++ utf8 ".").length > 0 := by
    unfold strlen
    rw [cstrAt_frame _ _ _ (not_mem_strip R hnul)]
    exact List.length_pos.2 hR
  refine ⟨post, ?_⟩
  rw [strip_track_number, hs, hfind]
  simp only [Option.map_some', Nat.zero_add, Nat.sub_zero, List.drop_zero, hne, if_true,
    hall, hlen]
  rw [hstrip, if_pos hpos]

/-! ## The sanitizer: theorems -/

/-- The artist is invalid exactly when it is absent, empty, or its
ASCII-lower-cased form starts with one of the three placeholder names. -/
theorem artist_valid_eq_false_iff (m : OlMetadata) :
    artist_valid m = false ↔
      m.artist = none ∨ m.artist = some [] ∨
        ∃ a, m.artist = some a ∧
          (utf8 "unknown" <+: g_ascii_strdown a ∨ utf8 "未知" <+: g_ascii_strdown a ∨
            utf8 "群星" <+: g_ascii_strdown a) := by
  have key : ∀ (s inv : CStr), 0 ∉ inv → inv ≠ [] →
      ((strstr (s ++ [0]) 0 inv == some 0) = true ↔ inv <+: s) := by
    intro s inv h0 hne
    unfold strstr
    simp only [Nat.zero_add, Option.map_id', beq_iff_eq]
    have hc : ∀ l : List Nat, (findSub inv l = some 0 ↔ inv <+: l) := by
      intro l
      constructor
      · intro h
        cases l with
        | nil =>
          simp only [findSub] at h
          split at h
          · rename_i hp; exact List.isPrefixOf_iff_prefix.1 hp
          · simp at h
        | cons c cs =>
          simp only [findSub] at h
          split at h
          · rename_i hp; exact List.isPrefixOf_iff_prefix.1 hp
          · cases hf : findSub inv cs <;> simp [hf] at h
      · exact findSub_at_start inv l
    rw [hc]
    unfold cstrAt
    simp only [List.drop_zero]
    constructor
    · intro h
      exact h.trans (takeWhile_append_stop _ s 0 [] (by decide))
    · rintro ⟨t, rfl⟩
      rw [List.append_assoc, List.takeWhile_append_of_pos]
      · exact List.prefix_append _ _
      · intro a ha
        have : a ≠ 0 := fun h => h0 (h ▸ ha)
        simpa using this
  cases hm : m.artist with
  | none => simp [artist_valid, hm]
  | some a =>
    by_cases ha : a = []
    · simp [artist_valid, hm, ha]
    · have hlen : a.length ≠ 0 := fun h => ha (List.length_eq_zero.1 h)
      simp only [artist_valid, hm, if_neg hlen, invalid_arts, List.any_cons, List.any_nil,
        Bool.or_false, Bool.not_eq_false', Bool.or_eq_true,
        key _ (utf8 "unknown") (by decide) (by decide),
        key _ (utf8 "未知") (by decide) (by decide),
        key _ (utf8 "群星") (by decide) (by decide)]
      simp [ha]

/-- How the result of the sanitizer is read off the two steps when the
separator loop has split the title. -/
theorem sanitize_of_steps (m : OlMetadata) (title : CStr) (htitle : m.title = some title)
    (hart : artist_valid m = false) (buf1 buf2 : List Nat) (p1 p2 pa : Nat)
    (h1 : strip_track_number (title ++ [0]) 0 = (buf1, p1))
    (h2 : split_loop buf1 p1 separators = (buf2, p2, ArtistPtr.in_title pa))
    (hp2 : p2 ≠ 0) :
    ol_metadata_sanitize_title_artist m
      = { m with artist := some (cstrAt buf2 pa), title := some (cstrAt buf2 p2) } := by
  unfold ol_metadata_sanitize_title_artist
  simp only [htitle, hart, h1, h2, g_strdup]
  simp [hp2]

/-- Claim C9: with an invalid artist and a title `P ++ "." ++ R`, where `P`
is a non-empty run of ASCII digits and white space and the trimmed `R` is
`A ++ " - " ++ S` with no `-` in `A`, no `--` in `S` and a non-blank `S`, the
sanitizer sets the artist to `A` and the title to the trimmed `S`; the other
fields are kept. -/
theorem sanitize_track_number_then_split (m : OlMetadata) (P R A S : CStr)
    (hart : artist_valid m = false)
    (htitle : m.title = some (P ++ utf8 "." ++ R))
    (hP : P ≠ [])
    (hPd : ∀ c ∈ P, g_ascii_isdigit c = true ∨ g_ascii_isspace c = true)
    (hnul : 0 ∉ R)
    (hR : strip R = A ++ utf8 " - " ++ S)
    (hA : ¬ utf8 "-" <:+: A)
    (hS : ¬ utf8 "--" <:+: S)
    (hS' : strip S ≠ []) :
    ol_metadata_sanitize_title_artist m
      = { m with artist := some A, title := some (strip S) } := by
  have hRne : strip R ≠ [] := by
    rw [hR, utf8_spaced_dash]; simp
  have hA45 : 45 ∉ A := by
    intro h
    apply hA
    rw [utf8_dash]
    obtain ⟨s, t, rfl⟩ := List.append_of_mem h
    exact ⟨s, t, by simp⟩
  obtain ⟨post, h1⟩ := strip_track_number_hit P R hP hPd hnul hRne
  have h0 : 0 ∉ A ++ utf8 " - " ++ S := hR ▸ not_mem_strip R hnul
  rw [hR] at h1
  have hskip := split_loop_skip (P ++ utf8 ".") (A ++ utf8 " - " ++ S) post (utf8 "--")
    [utf8 " - ", utf8 "-"] h0
    (by rw [utf8_dashdash, utf8_spaced_dash]
        exact findSub_dashdash_none A S hA45 (by rwa [utf8_dashdash] at hS))
  obtain ⟨buf, hloop, hbA, hbS⟩ := split_loop_hit (P ++ utf8 ".") A (utf8 " - ") S post
    [utf8 "-"] h0 (by decide)
    (by rw [utf8_spaced_dash]; exact findSub_spaced_dash A S hA45) hS'
  have h2 : split_loop (P ++ utf8 "." ++ (A ++ utf8 " - " ++ S) ++ 0 :: post)
      (P ++ utf8 ".").length separators
      = (buf, (P ++ utf8 ".").length + A.length + (utf8 " - ").length,
          ArtistPtr.in_title (P ++ utf8 ".").length) := by
    rw [separators, hskip, hloop]
  have h1' : strip_track_number ((P ++ utf8 "." ++ R) ++ [0]) 0
      = (P ++ utf8 "." ++ (A ++ utf8 " - " ++ S) ++ 0 :: post, (P ++ utf8 ".").length) := by
    rw [h1]
  rw [sanitize_of_steps m _ htitle hart _ _ _ _ _ h1' h2 (by simp [utf8_spaced_dash]),
    hbA, hbS]

/-- Witness for claim C9: title `01. Artist - Song` with artist `unknown`
becomes title `Song`, artist `Artist`. -/
theorem sanitize_track_number_then_split_witness :
    ol_metadata_sanitize_title_artist
        { ol_metadata_new with title := some (utf8 "01. Artist - Song"),
                               artist := some (utf8 "unknown") }
      = { ol_metadata_new with title := some (utf8 "Song"),
                               artist := some (utf8 "Artist") } :=
  sanitize_track_number_then_split
    { ol_metadata_new with title := some (utf8 "01. Artist - Song"),
                           artist := some (utf8 "unknown") }
    (utf8 "01") (utf8 " Artist - Song") (utf8 "Artist") (utf8 "Song")
    (by decide) (by decide) (by decide) (by decide) (by decide) (by decide) (by decide)
    (by decide) (by decide)

/-- Claim C10: with an invalid artist and a title without `.`, the first
`--` whose right-hand side is not blank splits the title, whatever stands
before it, and when the title has no `--` the first ` - ` does so: the artist
becomes the text before that separator, untrimmed, and the title the trimmed
text after it; the other fields are kept. -/
theorem sanitize_separator_priority (m : OlMetadata) (X Y sep : CStr)
    (hart : artist_valid m = false)
    (htitle : m.title = some (X ++ sep ++ Y))
    (hnul : 0 ∉ X ++ sep ++ Y)
    (hdot : ¬ utf8 "." <:+: X ++ sep ++ Y)
    (hsep : sep = utf8 "--" ∨ (sep = utf8 " - " ∧ ¬ utf8 "--" <:+: X ++ sep ++ Y))
    (hfirst : ∀ X' Y', X ++ sep ++ Y = X' ++ sep ++ Y' → X.length ≤ X'.length)
    (hY : strip Y ≠ []) :
    ol_metadata_sanitize_title_artist m
      = { m with artist := some X, title := some (strip Y) } := by
  have h1 := strip_track_number_no_dot _ hnul hdot
  have hne : sep ≠ [] := by
    rcases hsep with rfl | ⟨rfl, _⟩ <;> decide
  have hp2 : X.length + sep.length ≠ 0 := by
    have := List.length_pos.2 hne
    omega
  obtain ⟨buf, hloop, hbA, hbT⟩ : ∃ buf,
      split_loop (X ++ sep ++ Y ++ [0]) 0 separators
        = (buf, X.length + sep.length, ArtistPtr.in_title 0) ∧
      cstrAt buf 0 = X ∧ cstrAt buf (X.length + sep.length) = strip Y := by
    rcases hsep with rfl | ⟨rfl, hnd⟩
    · have := split_loop_hit [] X (utf8 "--") Y [] [utf8 " - ", utf8 "-"] hnul hne
        (findSub_first _ _ _ hfirst) hY
      simpa [separators] using this
    · have hskip := split_loop_skip [] (X ++ utf8 " - " ++ Y) [] (utf8 "--")
        [utf8 " - ", utf8 "-"] hnul (findSub_none _ _ hnd)
      have := split_loop_hit [] X (utf8 " - ") Y [] [utf8 "-"] hnul hne
        (findSub_first _ _ _ hfirst) hY
      rw [← hskip] at this
      simpa [separators] using this
  rw [sanitize_of_steps m _ htitle hart _ _ _ _ _ h1 hloop hp2, hbA, hbT]

/-- Witness for claim C10: title `A--B` with an empty artist becomes artist
`A`, title `B`; in `x - y--z` the `--` is preferred to the earlier ` - `; in
`a-b - c`, which has no `--`, the ` - ` is preferred to the earlier `-`. -/
theorem sanitize_separator_priority_witness :
    ol_metadata_sanitize_title_artist
        { ol_metadata_new with title := some (utf8 "A--B"), artist := some (utf8 "") }
      = { ol_metadata_new with title := some (utf8 "B"), artist := some (utf8 "A") } ∧
    ol_metadata_sanitize_title_artist
        { ol_metadata_new with title := some (utf8 "x - y--z"), artist := none }
      = { ol_metadata_new with title := some (utf8 "z"), artist := some (utf8 "x - y") } ∧
    ol_metadata_sanitize_title_artist
        { ol_metadata_new with title := some (utf8 "a-b - c"), artist := some (utf8 "Unknown") }
      = { ol_metadata_new with title := some (utf8 "c"), artist := some (utf8 "a-b") } :=
  ⟨sanitize_separator_priority
      { ol_metadata_new with title := some (utf8 "A--B"), artist := some (utf8 "") }
      (utf8 "A") (utf8 "B") (utf8 "--") (by decide) (by decide) (by decide) (by decide)
      (Or.inl rfl) (first_of_findSub _ _ _ (by decide)) (by decide),
    sanitize_separator_priority
      { ol_metadata_new with title := some (utf8 "x - y--z"), artist := none }
      (utf8 "x - y") (utf8 "z") (utf8 "--") (by decide) (by decide) (by decide) (by decide)
      (Or.inl rfl) (first_of_findSub _ _ _ (by decide)) (by decide),
    sanitize_separator_priority
      { ol_metadata_new with title := some (utf8 "a-b - c"), artist := some (utf8 "Unknown") }
      (utf8 "a-b") (utf8 "c") (utf8 " - ") (by decide) (by decide) (by decide) (by decide)
      (Or.inr ⟨rfl, by decide⟩) (first_of_findSub _ _ _ (by decide)) (by decide)⟩

/-! ## The sanitizer: what holds for every title -/

theorem findSub_some_decomp (needle : List Nat) :
    ∀ (s : List Nat) (i : Nat), findSub needle s = some i →
      ∃ X Y, s = X ++ needle ++ Y ∧ X.length = i := by
  intro s
  induction s with
  | nil =>
    intro i h
    simp only [findSub] at h
    split at h
    · rename_i hp
      obtain ⟨Y, hY⟩ := List.isPrefixOf_iff_prefix.1 hp
      have hi : i = 0 := by simpa using h.symm
      exact ⟨[], Y, by simp [hY], by simp [hi]⟩
    · simp at h
  | cons c cs ih =>
    intro i h
    simp only [findSub] at h
    split at h
    · rename_i hp
      obtain ⟨Y, hY⟩ := List.isPrefixOf_iff_prefix.1 hp
      have hi : i = 0 := by simpa using h.symm
      exact ⟨[], Y, by simp [hY], by simp [hi]⟩
    · cases hf : findSub needle cs with
      | none => simp [hf] at h
      | some j =>
        simp only [hf, Option.map_some', Option.some.injEq] at h
        obtain ⟨X, Y, hXY, hX⟩ := ih j hf
        exact ⟨c :: X, Y, by simp [hXY], by simp [hX, h]⟩

/-- A separator found with a blank right-hand side: the probe cuts the
string right after the separator and the loop goes on. -/
theorem split_loop_miss (pre X sep Y post : List Nat) (seps : List CStr)
    (hs : 0 ∉ X ++ sep ++ Y)
    (hfind : findSub sep (X ++ sep ++ Y) = some X.length) (hY : strip Y = []) :
    ∃ post1, split_loop (pre ++ (X ++ sep ++ Y) ++ 0 :: post) pre.length (sep :: seps)
      = split_loop (pre ++ (X ++ sep) ++ 0 :: post1) pre.length seps := by
  have hY0 : 0 ∉ Y := fun h => hs (by simp [h])
  have hbuf : pre ++ (X ++ sep ++ Y) ++ 0 :: post = (pre ++ X ++ sep) ++ Y ++ 0 :: post := by
    simp only [List.append_assoc]
  have hlen : pre.length + X.length + sep.length = (pre ++ X ++ sep).length := by
    simp [Nat.add_assoc]
  obtain ⟨post1, h1⟩ := g_strstrip_frame (pre ++ X ++ sep) Y post hY0
  have hstr : strlen (pre ++ X ++ sep ++ strip Y ++ 0 :: post1)
      (pre ++ X ++ sep).length = 0 := by
    unfold strlen
    rw [cstrAt_frame _ _ _ (not_mem_strip Y hY0), hY]
    rfl
  refine ⟨post1, ?_⟩
  rw [split_loop, strstr_frame pre _ post _ hs, hfind]
  simp only [Option.map_some']
  rw [hlen, hbuf, h1, hstr, if_neg (by decide), hY]
  simp only [List.append_nil, List.append_assoc]

/-- Whatever the separators, the string `new_title` points to after the loop
is not empty when it was not empty before. -/
theorem split_loop_keeps_title (seps : List CStr) (hseps : ∀ sep ∈ seps, sep ≠ []) :
    ∀ (pre s post : List Nat), 0 ∉ s → s ≠ [] →
      cstrAt (split_loop (pre ++ s ++ 0 :: post) pre.length seps).1
        (split_loop (pre ++ s ++ 0 :: post) pre.length seps).2.1 ≠ [] := by
  induction seps with
  | nil =>
    intro pre s post h0 hs
    simp only [split_loop]
    rwa [cstrAt_frame pre s post h0]
  | cons sep seps ih =>
    intro pre s post h0 hs
    have hsep : sep ≠ [] := hseps sep (List.mem_cons_self _ _)
    have ih' := ih (fun x hx => hseps x (List.mem_cons_of_mem _ hx))
    cases hf : findSub sep s with
    | none =>
      rw [split_loop_skip pre s post sep seps h0 hf]
      exact ih' pre s post h0 hs
    | some i =>
      obtain ⟨X, Y, rfl, rfl⟩ := findSub_some_decomp sep s i hf
      by_cases hY : strip Y = []
      · obtain ⟨post1, h1⟩ := split_loop_miss pre X sep Y post seps h0 hf hY
        rw [h1]
        have h0' : 0 ∉ X ++ sep := fun h => h0 (by
          simp only [List.mem_append] at h ⊢
          exact Or.inl h)
        exact ih' pre (X ++ sep) post1 h0' (by simp [hsep])
      · obtain ⟨buf, h1, _, h3⟩ := split_loop_hit pre X sep Y post seps h0 hsep hf hY
        rw [h1]
        simp only
        rwa [h3]

/-- The track-number step leaves `new_title` at a string that is not empty
when the title was not empty. -/
theorem strip_track_number_frame (T : CStr) (h0 : 0 ∉ T) (hT : T ≠ []) :
    ∃ pre s post, strip_track_number (T ++ [0]) 0 = (pre ++ s ++ 0 :: post, pre.length) ∧
      0 ∉ s ∧ s ≠ [] := by
  have base : ∃ pre s post,
      ((T ++ [0], 0) : List Nat × Nat) = (pre ++ s ++ 0 :: post, pre.length) ∧
        0 ∉ s ∧ s ≠ [] := ⟨[], T, [], by simp, h0, hT⟩
  have hs := strstr_frame [] T [] (utf8 ".") h0
  simp only [List.nil_append, List.length_nil] at hs
  unfold strip_track_number
  rw [hs]
  cases hf : findSub (utf8 ".") T with
  | none => exact base
  | some i =>
    obtain ⟨X, Y, rfl, rfl⟩ := findSub_some_decomp _ T i hf
    have hY0 : 0 ∉ Y := fun h => h0 (by simp [h])
    have hX0 : 0 ∉ X ++ utf8 "." := fun h => h0 (by
      simp only [List.mem_append] at h ⊢
      exact Or.inl h)
    simp only [Option.map_some', Nat.zero_add, Nat.sub_zero, List.drop_zero]
    split_ifs with h1 h2 h3
    · obtain ⟨post, hstrip⟩ := g_strstrip_frame (X ++ utf8 ".") Y [] hY0
      have hlen : X.length + 1 = (X ++ utf8 ".").length := by simp [utf8_dot]
      rw [hlen] at h3 ⊢
      rw [hstrip] at h3 ⊢
      refine ⟨X ++ utf8 ".", strip Y, post, rfl, not_mem_strip Y hY0, ?_⟩
      intro hY
      unfold strlen at h3
      rw [cstrAt_frame _ _ _ (not_mem_strip Y hY0), hY] at h3
      simp at h3
    · obtain ⟨post, hstrip⟩ := g_strstrip_frame (X ++ utf8 ".") Y [] hY0
      have hlen : X.length + 1 = (X ++ utf8 ".").length := by simp [utf8_dot]
      rw [hlen] at h3 ⊢
      rw [hstrip] at h3 ⊢
      have hY : strip Y = [] := by
        unfold strlen at h3
        rw [cstrAt_frame _ _ _ (not_mem_strip Y hY0)] at h3
        exact List.length_eq_zero.1 (by omega)
      refine ⟨[], X ++ utf8 ".", post, ?_, hX0, by simp [utf8_dot]⟩
      rw [hY]
      simp
    · exact base
    · exact base

/-! ## The sanitizer: more theorems -/

/-- With an invalid artist the title after the call is the string `new_title`
points to when the separator loop ends. -/
theorem sanitize_title_eq (m : OlMetadata) (T : CStr) (htitle : m.title = some T)
    (hart : artist_valid m = false) :
    (ol_metadata_sanitize_title_artist m).title
      = some (cstrAt
          (split_loop (strip_track_number (T ++ [0]) 0).1
            (strip_track_number (T ++ [0]) 0).2 separators).1
          (split_loop (strip_track_number (T ++ [0]) 0).1
            (strip_track_number (T ++ [0]) 0).2 separators).2.1) := by
  unfold ol_metadata_sanitize_title_artist
  simp only [htitle, hart, g_strdup]
  by_cases h : (split_loop (strip_track_number (T ++ [0]) 0).1
      (strip_track_number (T ++ [0]) 0).2 separators).2.1 = 0
  · simp [h]
  · simp [h]

/-- The result when the separator loop ends without a split. -/
theorem sanitize_of_no_split (m : OlMetadata) (title : CStr) (htitle : m.title = some title)
    (hart : artist_valid m = false) (buf1 buf2 : List Nat) (p1 p2 : Nat)
    (h1 : strip_track_number (title ++ [0]) 0 = (buf1, p1))
    (h2 : split_loop buf1 p1 separators = (buf2, p2, ArtistPtr.orig_artist)) :
    ol_metadata_sanitize_title_artist m = { m with title := some (cstrAt buf2 p2) } := by
  unfold ol_metadata_sanitize_title_artist
  simp only [htitle, hart, h1, h2, g_strdup]
  by_cases h : p2 = 0
  · simp [h]
  · simp [h]

theorem not_infix_of_dash (T sep : CStr) (hdash : ¬ utf8 "-" <:+: T)
    (hsep : utf8 "-" <:+: sep) : ¬ sep <:+: T :=
  fun h => hdash (hsep.trans h)

theorem strip_blank (W : CStr) (hW : ∀ c ∈ W, g_ascii_isspace c = true) : strip W = [] := by
  unfold strip
  rw [List.dropWhile_eq_nil_iff.2 hW]
  rfl

/-- The track-number step on `P ++ "." ++ W` with a blank `W`: `new_title`
stays at the start of the title, and the storage now ends after the period. -/
theorem strip_track_number_blank (P W : CStr) (hP : P ≠ [])
    (hPd : ∀ c ∈ P, g_ascii_isdigit c = true ∨ g_ascii_isspace c = true)
    (hW : ∀ c ∈ W, g_ascii_isspace c = true) :
    ∃ post, strip_track_number (P ++ utf8 "." ++ W ++ [0]) 0
      = (P ++ utf8 "." ++ 0 :: post, 0) := by
  have hnul : 0 ∉ W := by
    intro h
    have := hW 0 h
    simp [g_ascii_isspace] at this
  have hP0 : 0 ∉ P := by
    intro h
    rcases hPd 0 h with h1 | h1 <;> simp [g_ascii_isdigit, g_ascii_isspace] at h1
  have hPdot : 46 ∉ P := by
    intro h
    rcases hPd 46 h with h1 | h1 <;> simp [g_ascii_isdigit, g_ascii_isspace] at h1
  have h0 : 0 ∉ P ++ utf8 "." ++ W := by
    simp only [utf8_dot, List.mem_append, List.mem_singleton, not_or]
    exact ⟨⟨hP0, by decide⟩, hnul⟩
  have hs := strstr_frame [] (P ++ utf8 "." ++ W) [] (utf8 ".") h0
  simp only [List.nil_append, List.length_nil] at hs
  have hfind : findSub (utf8 ".") (P ++ utf8 "." ++ W) = some P.length := by
    have := findSub_single 46 P W hPdot
    simpa [utf8_dot] using this
  obtain ⟨post, hstrip⟩ := g_strstrip_frame (P ++ utf8 ".") W [] hnul
  rw [strip_blank W hW] at hstrip
  have hlen : P.length + 1 = (P ++ utf8 ".").length := by simp [utf8_dot]
  have hne : (P.length != 0) = true := by
    simpa using hP
  have hall : ((P ++ utf8 "." ++ W ++ [0]).take P.length).all
      (fun c => g_ascii_isdigit c || g_ascii_isspace c) = true := by
    rw [List.append_assoc, List.append_assoc, List.take_left]
    simpa [List.all_eq_true] using hPd
  have hzero : ¬ strlen (P ++ utf8 "." ++ [] ++ 0 :: post) (P ++ utf8 ".").length > 0 := by
    unfold strlen
    rw [cstrAt_frame _ _ _ (by simp)]
    simp
  refine ⟨post, ?_⟩
  rw [strip_track_number, hs, hfind]
  simp only [Option.map_some', Nat.zero_add, Nat.sub_zero, List.drop_zero, hne, if_true,
    hall, hlen]
  rw [hstrip, if_neg hzero]
  simp

/-- What the sanitizer does with a title `P ++ "." ++ W` whose remainder `W`
is blank, when the title has no `-`: the artist is kept and the title comes
out as `P ++ "."`, without `W`. -/
theorem sanitize_blank_remainder (m : OlMetadata) (P W : CStr)
    (hart : artist_valid m = false)
    (htitle : m.title = some (P ++ utf8 "." ++ W))
    (hP : P ≠ [])
    (hPd : ∀ c ∈ P, g_ascii_isdigit c = true ∨ g_ascii_isspace c = true)
    (hW : ∀ c ∈ W, g_ascii_isspace c = true)
    (hdash : ¬ utf8 "-" <:+: P ++ utf8 "." ++ W) :
    ol_metadata_sanitize_title_artist m = { m with title := some (P ++ utf8 ".") } := by
  obtain ⟨post, h1⟩ := strip_track_number_blank P W hP hPd hW
  have hP0 : 0 ∉ P ++ utf8 "." := by
    intro h
    simp only [utf8_dot, List.mem_append, List.mem_singleton] at h
    rcases h with h | h
    · rcases hPd 0 h with h1 | h1 <;> simp [g_ascii_isdigit, g_ascii_isspace] at h1
    · exact absurd h (by decide)
  have hd : ¬ utf8 "-" <:+: P ++ utf8 "." :=
    fun h => hdash (h.trans (List.prefix_append _ W).isInfix)
  have k1 := split_loop_skip [] (P ++ utf8 ".") post (utf8 "--") [utf8 " - ", utf8 "-"] hP0
    (findSub_none _ _ (not_infix_of_dash _ _ hd (by decide)))
  have k2 := split_loop_skip [] (P ++ utf8 ".") post (utf8 " - ") [utf8 "-"] hP0
    (findSub_none _ _ (not_infix_of_dash _ _ hd (by decide)))
  have k3 := split_loop_skip [] (P ++ utf8 ".") post (utf8 "-") [] hP0 (findSub_none _ _ hd)
  have h2 : split_loop (P ++ utf8 "." ++ 0 :: post) 0 separators
      = (P ++ utf8 "." ++ 0 :: post, 0, ArtistPtr.orig_artist) := by
    simp only [List.nil_append, List.length_nil] at k1 k2 k3
    rw [separators, k1, k2, k3]
    rfl
  rw [sanitize_of_no_split m _ htitle hart _ _ _ _ h1 h2]
  have hc := cstrAt_frame [] (P ++ utf8 ".") post hP0
  simp only [List.nil_append, List.length_nil] at hc
  rw [hc]

/-- Claim C11, evaluated on the title `01.` followed by three spaces, with
an empty artist: the probe for the track number trims the text after the
period inside the title's own storage before it finds that text blank, so
the title comes out as `01.`, three bytes shorter than it was; with nothing
after the period the title is kept. -/
theorem blank_remainder_trims_title :
    ol_metadata_sanitize_title_artist
        { ol_metadata_new with title := some (utf8 "01.   "), artist := some (utf8 "") }
      = { ol_metadata_new with title := some (utf8 "01."), artist := some (utf8 "") } ∧
    g_strstrip (utf8 "01.   " ++ [0]) 3 = utf8 "01." ++ [0, 32, 32, 0] ∧
    ol_metadata_sanitize_title_artist
        { ol_metadata_new with title := some (utf8 "01."), artist := some (utf8 "") }
      = { ol_metadata_new with title := some (utf8 "01."), artist := some (utf8 "") } := by
  decide

/-- Claim C12: when the title is absent, or the artist is valid (present, not
empty, and its ASCII-lower-cased form starts with none of `unknown`, `未知`,
`群星`), the sanitizer changes none of the seven fields. -/
theorem sanitize_short_circuit (m : OlMetadata)
    (h : m.title = none ∨
      ∃ a, m.artist = some a ∧ a ≠ [] ∧ ¬ utf8 "unknown" <+: g_ascii_strdown a ∧
        ¬ utf8 "未知" <+: g_ascii_strdown a ∧ ¬ utf8 "群星" <+: g_ascii_strdown a) :
    ol_metadata_sanitize_title_artist m = m := by
  rcases h with h | ⟨a, ha, hne, h1, h2, h3⟩
  · unfold ol_metadata_sanitize_title_artist
    simp [h]
  · have hv : artist_valid m = true := by
      cases hb : artist_valid m with
      | true => rfl
      | false =>
        exfalso
        rcases (artist_valid_eq_false_iff m).1 hb with h | h | ⟨b, hb', hp⟩
        · rw [ha] at h; exact Option.noConfusion h
        · rw [ha] at h; exact hne (Option.some.inj h)
        · rw [ha] at hb'
          obtain rfl := Option.some.inj hb'
          rcases hp with hp | hp | hp
          · exact h1 hp
          · exact h2 hp
          · exact h3 hp
    unfold ol_metadata_sanitize_title_artist
    cases m.title <;> simp [hv]

/-- Witness for claim C12: title `01. A - B` with artist `Real Artist` is
kept, as is title `Artist`; `The Unknown` is a valid artist and `Unknown
Artist` is not. -/
theorem sanitize_short_circuit_witness :
    artist_valid { ol_metadata_new with artist := some (utf8 "The Unknown") } = true ∧
    artist_valid { ol_metadata_new with artist := some (utf8 "Unknown Artist") } = false ∧
    ol_metadata_sanitize_title_artist
        { ol_metadata_new with title := some (utf8 "Artist"),
                               artist := some (utf8 "Real Artist") }
      = { ol_metadata_new with title := some (utf8 "Artist"),
                               artist := some (utf8 "Real Artist") } ∧
    ol_metadata_sanitize_title_artist
        { ol_metadata_new with title := some (utf8 "01. A - B"),
                               artist := some (utf8 "Real Artist") }
      = { ol_metadata_new with title := some (utf8 "01. A - B"),
                               artist := some (utf8 "Real Artist") } :=
  ⟨by decide, by decide,
    sanitize_short_circuit _
      (Or.inr ⟨utf8 "Real Artist", rfl, by decide, by decide, by decide, by decide⟩),
    sanitize_short_circuit _
      (Or.inr ⟨utf8 "Real Artist", rfl, by decide, by decide, by decide, by decide⟩)⟩

/-- Claim C13: with an invalid artist and a title that has neither a `.` nor
a `-`, the sanitizer leaves the title and the artist, and so the whole
record, as they were. -/
theorem sanitize_no_separator (m : OlMetadata) (T : CStr)
    (hart : artist_valid m = false)
    (htitle : m.title = some T)
    (hnul : 0 ∉ T)
    (hdot : ¬ utf8 "." <:+: T)
    (hdash : ¬ utf8 "-" <:+: T) :
    ol_metadata_sanitize_title_artist m = m := by
  have h1 := strip_track_number_no_dot T hnul hdot
  have k1 := split_loop_skip [] T [] (utf8 "--") [utf8 " - ", utf8 "-"] hnul
    (findSub_none _ _ (not_infix_of_dash T _ hdash (by decide)))
  have k2 := split_loop_skip [] T [] (utf8 " - ") [utf8 "-"] hnul
    (findSub_none _ _ (not_infix_of_dash T _ hdash (by decide)))
  have k3 := split_loop_skip [] T [] (utf8 "-") [] hnul (findSub_none _ _ hdash)
  have h2 : split_loop (T ++ [0]) 0 separators = (T ++ [0], 0, ArtistPtr.orig_artist) := by
    simp only [List.nil_append, List.length_nil] at k1 k2 k3
    rw [separators, k1, k2, k3]
    rfl
  rw [sanitize_of_no_split m T htitle hart _ _ _ _ h1 h2]
  have hc := cstrAt_frame [] T [] hnul
  simp only [List.nil_append, List.length_nil] at hc
  rw [hc, ← htitle]

/-- Witness for claim C13: title `Song` with artist `群星` stays as it is. -/
theorem sanitize_no_separator_witness :
    ol_metadata_sanitize_title_artist
        { ol_metadata_new with title := some (utf8 "Song"), artist := some (utf8 "群星") }
      = { ol_metadata_new with title := some (utf8 "Song"), artist := some (utf8 "群星") } :=
  sanitize_no_separator
    { ol_metadata_new with title := some (utf8 "Song"), artist := some (utf8 "群星") }
    (utf8 "Song") (by decide) rfl (by decide) (by decide) (by decide)

/-- Claim C20: a title that is present is still present after the sanitizer,
and one that was not empty is not empty afterwards, whatever the artist and
the title are, also when a probe has trimmed the title in place. -/
theorem sanitize_title_kept (m : OlMetadata) (T : CStr)
    (htitle : m.title = some T) (hnul : 0 ∉ T) :
    ∃ T', (ol_metadata_sanitize_title_artist m).title = some T' ∧ (T ≠ [] → T' ≠ []) := by
  cases hart : artist_valid m with
  | true =>
    refine ⟨T, ?_, fun h => h⟩
    unfold ol_metadata_sanitize_title_artist
    simp [htitle, hart]
  | false =>
    refine ⟨_, sanitize_title_eq m T htitle hart, ?_⟩
    intro hT
    obtain ⟨pre, s, post, h1, h0, hs⟩ := strip_track_number_frame T hnul hT
    rw [h1]
    exact split_loop_keeps_title separators (by decide) pre s post h0 hs

/-- Witness for claim C20: the title `ab-` followed by two spaces, with an
empty artist, comes out as `ab-`: the probe for `-` trims it in place and
finds nothing to split off. -/
theorem sanitize_title_kept_witness :
    ol_metadata_sanitize_title_artist
        { ol_metadata_new with title := some (utf8 "ab-  "), artist := some (utf8 "") }
      = { ol_metadata_new with title := some (utf8 "ab-"), artist := some (utf8 "") } ∧
    ∃ T', (ol_metadata_sanitize_title_artist
        { ol_metadata_new with title := some (utf8 "ab-  "),
                               artist := some (utf8 "") }).title = some T' ∧
      (utf8 "ab-  " ≠ [] → T' ≠ []) :=
  ⟨by decide,
    sanitize_title_kept
      { ol_metadata_new with title := some (utf8 "ab-  "), artist := some (utf8 "") }
      (utf8 "ab-  ") rfl (by decide)⟩

/-! ## Equality, clearing and copying: theorems -/

theorem internal_streq_iff (lhs rhs : Option CStr) :
    internal_streq lhs rhs = true ↔ lhs = rhs := by
  cases lhs <;> cases rhs <;> simp [internal_streq]

/-- Claim C14: `ol_metadata_equal` on two present instances is true exactly
when all seven fields agree, the strings by content with an absent string
equal to an absent one only (so not to an empty string), the track number and
the duration as numbers. -/
theorem equal_iff_fields (a b : OlMetadata) :
    (ol_metadata_equal a b = true ↔
      (a.title = b.title ∧ a.artist = b.artist ∧ a.album = b.album ∧
        a.track_number = b.track_number ∧ a.uri = b.uri ∧ a.art = b.art ∧
        a.duration = b.duration)) ∧
    internal_streq none (some []) = false ∧ internal_streq (some []) none = false ∧
    internal_streq none none = true := by
  refine ⟨?_, rfl, rfl, rfl⟩
  unfold ol_metadata_equal
  simp only [← internal_streq_iff]
  cases internal_streq a.title b.title <;> cases internal_streq a.artist b.artist <;>
    cases internal_streq a.album b.album <;> cases internal_streq a.uri b.uri <;>
    cases internal_streq a.art b.art <;> simp

theorem equal_self (a : OlMetadata) : ol_metadata_equal a a = true := by
  have h := internal_streq_iff
  simp [ol_metadata_equal, (h _ _).2 rfl]

/-- Claim C18: after `ol_metadata_clear` the instance is `ol_metadata_equal`
to a fresh `ol_metadata_new ()`: the five strings are absent, the track
number is -1 and the duration is 0. -/
theorem clear_equal_new (m : OlMetadata) :
    ol_metadata_equal (ol_metadata_clear m) ol_metadata_new = true ∧
    ol_metadata_clear m =
      { title := none, artist := none, album := none, track_number := -1,
        uri := none, art := none, duration := 0 } := by
  have h : ol_metadata_clear m = ol_metadata_new := rfl
  exact ⟨by rw [h]; exact equal_self _, h⟩

theorem deref_set_self (heap : Heap) (p : Nat) (x : OlMetadata) (hp : p < heap.length) :
    deref (heap.set p x) p = x := by
  simp [deref, List.getD_eq_getElem?_getD, List.getElem?_set, hp]

theorem deref_set_other (heap : Heap) (p q : Nat) (x : OlMetadata) (hne : p ≠ q) :
    deref (heap.set p x) q = deref heap q := by
  simp [deref, List.getD_eq_getElem?_getD, List.getElem?_set, hne]

theorem deref_through_self (heap : Heap) (p : Nat) (f : OlMetadata → OlMetadata)
    (hp : p < heap.length) : deref (through heap p f) p = f (deref heap p) :=
  deref_set_self heap p _ hp

theorem deref_through_other (heap : Heap) (p q : Nat) (f : OlMetadata → OlMetadata)
    (hne : p ≠ q) : deref (through heap p f) q = deref heap q :=
  deref_set_other heap p q _ hne

theorem length_through (heap : Heap) (p : Nat) (f : OlMetadata → OlMetadata) :
    (through heap p f).length = heap.length := by
  simp [through]

/-- What `ol_metadata_copy` leaves at its two pointers. -/
theorem copy_spec (heap : Heap) (dest src : Nat) (hd : dest < heap.length) :
    deref (ol_metadata_copy heap dest src) dest = deref heap src ∧
    deref (ol_metadata_copy heap dest src) src = deref heap src := by
  unfold ol_metadata_copy
  by_cases he : dest = src
  · simp [he]
  · simp only [if_neg he]
    constructor
    · simp only [deref_through_self, deref_through_other, length_through, hd, he, ne_eq,
        not_false_eq_true]
      simp [ol_metadata_set_title, ol_metadata_set_artist, ol_metadata_set_album,
        ol_metadata_set_track_number, ol_metadata_set_uri, ol_metadata_set_art,
        ol_metadata_set_duration, internal_set_string, g_strdup]
      cases hs : deref heap src with
      | mk t a al tn u ar du =>
        cases t <;> cases a <;> cases al <;> cases u <;> cases ar <;> rfl
    · simp only [deref_through_other, he, ne_eq, not_false_eq_true]

/-- Claim C17: after `ol_metadata_copy (dest, src)` the instance at `dest` is
`ol_metadata_equal` to the one at `src`, which is as it was before,
whatever `dest` held; and the instance returned by `ol_metadata_dup (src)`
is `ol_metadata_equal` to the one at `src`, which is as it was before. -/
theorem copy_and_dup_equal (heap : Heap) (dest src : Nat)
    (hd : dest < heap.length) (hs : src < heap.length) :
    (ol_metadata_equal (deref (ol_metadata_copy heap dest src) dest)
        (deref (ol_metadata_copy heap dest src) src) = true ∧
      deref (ol_metadata_copy heap dest src) src = deref heap src) ∧
    (ol_metadata_equal
        (deref (ol_metadata_dup heap src).1 (ol_metadata_dup heap src).2)
        (deref (ol_metadata_dup heap src).1 src) = true ∧
      deref (ol_metadata_dup heap src).1 src = deref heap src) := by
  obtain ⟨h1, h2⟩ := copy_spec heap dest src hd
  have hsrc : deref (heap ++ [ol_metadata_new]) src = deref heap src := by
    simp [deref, List.getD_eq_getElem?_getD, List.getElem?_append_left hs]
  obtain ⟨h3, h4⟩ := copy_spec (heap ++ [ol_metadata_new]) heap.length src (by simp)
  refine ⟨⟨?_, h2⟩, ?_, ?_⟩
  · rw [h1, h2]
    exact equal_self _
  · show ol_metadata_equal
      (deref (ol_metadata_copy (heap ++ [ol_metadata_new]) heap.length src) heap.length)
      (deref (ol_metadata_copy (heap ++ [ol_metadata_new]) heap.length src) src) = true
    rw [h3, h4]
    exact equal_self _
  · show deref (ol_metadata_copy (heap ++ [ol_metadata_new]) heap.length src) src = _
    rw [h4, hsrc]

/-- Witness for claim C17: the sample record copied over a record that held
other strings, and duplicated. -/
theorem copy_and_dup_equal_witness :
    deref (ol_metadata_copy
        [sample_metadata, { sample_metadata with title := some (utf8 "old"), uri := some [] }]
        1 0) 1 = sample_metadata ∧
    ((ol_metadata_equal
        (deref (ol_metadata_copy
          [sample_metadata, { sample_metadata with title := some (utf8 "old"), uri := some [] }]
          1 0) 1)
        (deref (ol_metadata_copy
          [sample_metadata, { sample_metadata with title := some (utf8 "old"), uri := some [] }]
          1 0) 0) = true ∧
      deref (ol_metadata_copy
          [sample_metadata, { sample_metadata with title := some (utf8 "old"), uri := some [] }]
          1 0) 0
        = deref
          [sample_metadata, { sample_metadata with title := some (utf8 "old"), uri := some [] }]
          0) ∧
    (ol_metadata_equal
        (deref (ol_metadata_dup
          [sample_metadata, { sample_metadata with title := some (utf8 "old"), uri := some [] }]
          0).1
          (ol_metadata_dup
            [sample_metadata, { sample_metadata with title := some (utf8 "old"), uri := some [] }]
            0).2)
        (deref (ol_metadata_dup
          [sample_metadata, { sample_metadata with title := some (utf8 "old"), uri := some [] }]
          0).1 0) = true ∧
      deref (ol_metadata_dup
          [sample_metadata, { sample_metadata with title := some (utf8 "old"), uri := some [] }]
          0).1 0
        = deref
          [sample_metadata, { sample_metadata with title := some (utf8 "old"), uri := some [] }]
          0)) :=
  ⟨by decide,
    copy_and_dup_equal
      [sample_metadata, { sample_metadata with title := some (utf8 "old"), uri := some [] }]
      1 0 (by decide) (by decide)⟩

/-- Claim C19: whatever the text, the output of `ol_metadata_serialize`
included, `ol_metadata_deserialize` returns 0 and leaves the record as it
was: the lookups for the art and the duration start from the track-number
line, which the lookup for the uri has already ended with a NUL. -/
theorem deserialize_always_fails (m : OlMetadata) (data : CStr) :
    ol_metadata_deserialize m data = (0, m) ∧
    (∀ (m' : OlMetadata) (count : Nat),
      ol_metadata_deserialize m (serialized_text m' count) = (0, m)) ∧
    (deserialize_lines (g_strdup data ++ [0])).art = none ∧
    (deserialize_lines (g_strdup data ++ [0])).ret = 0 :=
  ⟨deserialize_fails m data, fun _ _ => deserialize_fails m _,
    deserialize_lines_art _, deserialize_lines_ret _⟩

/-! ## Property maps: export -/

/-- Claim C15: the map made by `ol_metadata_to_variant` holds exactly these
entries: `title`, `artist`, `album`, `location` (the uri) and `arturl` (the
art), each when the field is present and with its value; `time` and `mtime`
always, as unsigned 32-bit values, the duration divided by 1000 and the
duration, both taken modulo 2 ^ 32; and `tracknumber`, the track number in
decimal, when the track number is positive.  No key occurs twice. -/
theorem to_variant_entries (m : OlMetadata) (k : CStr) (v : GVariant) :
    ((k, v) ∈ ol_metadata_to_variant m ↔
      (k = utf8 "title" ∧ m.title.map GVariant.string = some v) ∨
      (k = utf8 "artist" ∧ m.artist.map GVariant.string = some v) ∨
      (k = utf8 "album" ∧ m.album.map GVariant.string = some v) ∨
      (k = utf8 "location" ∧ m.uri.map GVariant.string = some v) ∨
      (k = utf8 "arturl" ∧ m.art.map GVariant.string = some v) ∨
      (k = utf8 "time" ∧ v = GVariant.uint32 (m.duration / 1000 % 2 ^ 32)) ∨
      (k = utf8 "mtime" ∧ v = GVariant.uint32 (m.duration % 2 ^ 32)) ∨
      (k = utf8 "tracknumber" ∧ 0 < m.track_number ∧
        v = GVariant.string (fmt_d m.track_number))) ∧
    ((ol_metadata_to_variant m).map Prod.fst).Nodup := by
  obtain ⟨title, artist, album, tn, uri, art, dur⟩ := m
  constructor
  · by_cases htn : tn > 0 <;> cases title <;> cases artist <;> cases album <;>
      cases uri <;> cases art <;>
      simp [ol_metadata_to_variant, _add_string_to_dict_builder, to_guint32, htn,
        eq_comm]
  · by_cases htn : tn > 0 <;> cases title <;> cases artist <;> cases album <;>
      cases uri <;> cases art <;>
      simp only [ol_metadata_to_variant, _add_string_to_dict_builder, htn, if_true,
        if_false, List.nil_append, List.cons_append, List.map_cons, List.map_nil,
        List.append_assoc] <;>
      decide

/-! ## Property maps: import -/

theorem import_entry_other (m : OlMetadata) (k : CStr) (v : GVariant)
    (hk : k ∉ import_keys) : import_entry m k v = m := by
  simp only [import_keys, List.mem_cons, List.mem_singleton, List.not_mem_nil, or_false,
    not_or] at hk
  obtain ⟨h1, h2, h3, h4, h5, h6, h7⟩ := hk
  simp [import_entry, h1, h2, h3, h4, h5, h6, h7]

/-- A field that one key alone writes: after the loop it is what the entry
with that key made of it, and what it was when no entry has the key. -/
theorem foldl_import_field {β : Type} (proj : OlMetadata → β) (K : CStr)
    (g : GVariant → β → β)
    (hstep : ∀ m k v, proj (import_entry m k v) = if k = K then g v (proj m) else proj m)
    (l : Dict) :
    ∀ m0 : OlMetadata,
      (K ∉ l.map Prod.fst →
        proj (l.foldl (fun metadata kv => import_entry metadata kv.1 kv.2) m0) = proj m0) ∧
      (∀ v, (l.map Prod.fst).Nodup → (K, v) ∈ l →
        proj (l.foldl (fun metadata kv => import_entry metadata kv.1 kv.2) m0)
          = g v (proj m0)) := by
  induction l with
  | nil => intro m0; simp
  | cons kv l ih =>
    intro m0
    obtain ⟨k, v'⟩ := kv
    constructor
    · intro hK
      simp only [List.map_cons, List.mem_cons, not_or] at hK
      simp only [List.foldl_cons]
      rw [(ih _).1 hK.2, hstep, if_neg (Ne.symm hK.1)]
    · intro v hnd hmem
      simp only [List.map_cons, List.nodup_cons] at hnd
      simp only [List.foldl_cons]
      rcases List.mem_cons.1 hmem with heq | hin
      · obtain ⟨rfl, rfl⟩ := Prod.mk.inj heq
        rw [(ih _).1 hnd.1, hstep, if_pos rfl]
      · have hkK : k ≠ K := by
          rintro rfl
          exact hnd.1 (List.mem_map.2 ⟨(k, v), hin, rfl⟩)
        rw [(ih _).2 v hnd.2 hin, hstep, if_neg hkK]

theorem foldl_import_filter (l : Dict) :
    ∀ m0 : OlMetadata,
      (l.filter (fun kv => decide (kv.1 ∈ import_keys))).foldl
          (fun metadata kv => import_entry metadata kv.1 kv.2) m0
        = l.foldl (fun metadata kv => import_entry metadata kv.1 kv.2) m0 := by
  induction l with
  | nil => intro m0; rfl
  | cons kv l ih =>
    intro m0
    by_cases hk : kv.1 ∈ import_keys
    · simp only [List.filter_cons, hk, decide_True, if_true, List.foldl_cons]
      exact ih _
    · simp only [List.filter_cons, hk, decide_False, List.foldl_cons]
      rw [import_entry_other _ _ _ hk]
      exact ih _

theorem internal_set_string_eq (old val : Option CStr) : internal_set_string old val = val := by
  cases val <;> rfl

theorem import_at_title (m : OlMetadata) (v : GVariant) :
    import_entry m (utf8 "xesam:title") v
      = ol_metadata_set_title m (g_variant_get_string v) := by
  unfold import_entry
  rw [if_pos rfl]

theorem import_at_artist (m : OlMetadata) (v : GVariant) :
    import_entry m (utf8 "xesam:artist") v
      = match v with
        | GVariant.string _ => ol_metadata_set_artist m (g_variant_get_string v)
        | GVariant.strv artist_list =>
          ol_metadata_set_artist m (some (g_strjoinv (utf8 ", ") artist_list))
        | _ => m := by
  unfold import_entry
  rw [if_neg (by decide), if_pos rfl]

theorem import_at_album (m : OlMetadata) (v : GVariant) :
    import_entry m (utf8 "xesam:album") v
      = ol_metadata_set_album m (g_variant_get_string v) := by
  unfold import_entry
  rw [if_neg (by decide), if_neg (by decide), if_pos rfl]

theorem import_at_artUrl (m : OlMetadata) (v : GVariant) :
    import_entry m (utf8 "mpris:artUrl") v
      = ol_metadata_set_art m (g_variant_get_string v) := by
  unfold import_entry
  rw [if_neg (by decide), if_neg (by decide), if_neg (by decide), if_pos rfl]

theorem import_at_url (m : OlMetadata) (v : GVariant) :
    import_entry m (utf8 "xesam:url") v
      = ol_metadata_set_uri m (g_variant_get_string v) := by
  unfold import_entry
  rw [if_neg (by decide), if_neg (by decide), if_neg (by decide), if_neg (by decide),
    if_pos rfl]

theorem import_at_trackNumber (m : OlMetadata) (v : GVariant) :
    import_entry m (utf8 "xesam:trackNumber") v
      = ol_metadata_set_track_number m (g_variant_get_int32 v) := by
  unfold import_entry
  rw [if_neg (by decide), if_neg (by decide), if_neg (by decide), if_neg (by decide),
    if_neg (by decide), if_pos rfl]

theorem import_at_length (m : OlMetadata) (v : GVariant) :
    import_entry m (utf8 "mpris:length") v
      = ol_metadata_set_duration m (to_guint64 (g_variant_get_int64 v)) := by
  unfold import_entry
  rw [if_neg (by decide), if_neg (by decide), if_neg (by decide), if_neg (by decide),
    if_neg (by decide), if_neg (by decide), if_pos rfl]

theorem import_entry_title (m : OlMetadata) (k : CStr) (v : GVariant) :
    (import_entry m k v).title
      = if k = utf8 "xesam:title" then (fun v _ => g_variant_get_string v) v m.title
        else m.title := by
  by_cases hk : k ∈ import_keys
  · simp only [import_keys, List.mem_cons, List.mem_singleton, List.not_mem_nil,
      or_false] at hk
    rcases hk with rfl | rfl | rfl | rfl | rfl | rfl | rfl
    · rw [import_at_title, if_pos rfl]
      simp [ol_metadata_set_title, internal_set_string_eq]
    · rw [import_at_artist, if_neg (by decide)]
      cases v <;> rfl
    · rw [import_at_album, if_neg (by decide)]; rfl
    · rw [import_at_artUrl, if_neg (by decide)]; rfl
    · rw [import_at_url, if_neg (by decide)]; rfl
    · rw [import_at_trackNumber, if_neg (by decide)]; rfl
    · rw [import_at_length, if_neg (by decide)]; rfl
  · rw [import_entry_other _ _ _ hk, if_neg (fun h => hk (by rw [h]; decide))]

theorem import_entry_artist (m : OlMetadata) (k : CStr) (v : GVariant) :
    (import_entry m k v).artist
      = if k = utf8 "xesam:artist" then artist_from v m.artist else m.artist := by
  by_cases hk : k ∈ import_keys
  · simp only [import_keys, List.mem_cons, List.mem_singleton, List.not_mem_nil,
      or_false] at hk
    rcases hk with rfl | rfl | rfl | rfl | rfl | rfl | rfl
    · rw [import_at_title, if_neg (by decide)]; rfl
    · rw [import_at_artist, if_pos rfl]
      cases v <;>
        simp [ol_metadata_set_artist, internal_set_string_eq, g_variant_get_string,
          artist_from]
    · rw [import_at_album, if_neg (by decide)]; rfl
    · rw [import_at_artUrl, if_neg (by decide)]; rfl
    · rw [import_at_url, if_neg (by decide)]; rfl
    · rw [import_at_trackNumber, if_neg (by decide)]; rfl
    · rw [import_at_length, if_neg (by decide)]; rfl
  · rw [import_entry_other _ _ _ hk, if_neg (fun h => hk (by rw [h]; decide))]

theorem import_entry_album (m : OlMetadata) (k : CStr) (v : GVariant) :
    (import_entry m k v).album
      = if k = utf8 "xesam:album" then (fun v _ => g_variant_get_string v) v m.album
        else m.album := by
  by_cases hk : k ∈ import_keys
  · simp only [import_keys, List.mem_cons, List.mem_singleton, List.not_mem_nil,
      or_false] at hk
    rcases hk with rfl | rfl | rfl | rfl | rfl | rfl | rfl
    · rw [import_at_title, if_neg (by decide)]; rfl
    · rw [import_at_artist, if_neg (by decide)]
      cases v <;> rfl
    · rw [import_at_album, if_pos rfl]
      simp [ol_metadata_set_album, internal_set_string_eq]
    · rw [import_at_artUrl, if_neg (by decide)]; rfl
    · rw [import_at_url, if_neg (by decide)]; rfl
    · rw [import_at_trackNumber, if_neg (by decide)]; rfl
    · rw [import_at_length, if_neg (by decide)]; rfl
  · rw [import_entry_other _ _ _ hk, if_neg (fun h => hk (by rw [h]; decide))]

theorem import_entry_art (m : OlMetadata) (k : CStr) (v : GVariant) :
    (import_entry m k v).art
      = if k = utf8 "mpris:artUrl" then (fun v _ => g_variant_get_string v) v m.art
        else m.art := by
  by_cases hk : k ∈ import_keys
  · simp only [import_keys, List.mem_cons, List.mem_singleton, List.not_mem_nil,
      or_false] at hk
    rcases hk with rfl | rfl | rfl | rfl | rfl | rfl | rfl
    · rw [import_at_title, if_neg (by decide)]; rfl
    · rw [import_at_artist, if_neg (by decide)]
      cases v <;> rfl
    · rw [import_at_album, if_neg (by decide)]; rfl
    · rw [import_at_artUrl, if_pos rfl]
      simp [ol_metadata_set_art, internal_set_string_eq]
    · rw [import_at_url, if_neg (by decide)]; rfl
    · rw [import_at_trackNumber, if_neg (by decide)]; rfl
    · rw [import_at_length, if_neg (by decide)]; rfl
  · rw [import_entry_other _ _ _ hk, if_neg (fun h => hk (by rw [h]; decide))]

theorem import_entry_uri (m : OlMetadata) (k : CStr) (v : GVariant) :
    (import_entry m k v).uri
      = if k = utf8 "xesam:url" then (fun v _ => g_variant_get_string v) v m.uri
        else m.uri := by
  by_cases hk : k ∈ import_keys
  · simp only [import_keys, List.mem_cons, List.mem_singleton, List.not_mem_nil,
      or_false] at hk
    rcases hk with rfl | rfl | rfl | rfl | rfl | rfl | rfl
    · rw [import_at_title, if_neg (by decide)]; rfl
    · rw [import_at_artist, if_neg (by decide)]
      cases v <;> rfl
    · rw [import_at_album, if_neg (by decide)]; rfl
    · rw [import_at_artUrl, if_neg (by decide)]; rfl
    · rw [import_at_url, if_pos rfl]
      simp [ol_metadata_set_uri, internal_set_string_eq]
    · rw [import_at_trackNumber, if_neg (by decide)]; rfl
    · rw [import_at_length, if_neg (by decide)]; rfl
  · rw [import_entry_other _ _ _ hk, if_neg (fun h => hk (by rw [h]; decide))]

theorem import_entry_track_number (m : OlMetadata) (k : CStr) (v : GVariant) :
    (import_entry m k v).track_number
      = if k = utf8 "xesam:trackNumber" then
          (fun v _ => g_variant_get_int32 v) v m.track_number
        else m.track_number := by
  by_cases hk : k ∈ import_keys
  · simp only [import_keys, List.mem_cons, List.mem_singleton, List.not_mem_nil,
      or_false] at hk
    rcases hk with rfl | rfl | rfl | rfl | rfl | rfl | rfl
    · rw [import_at_title, if_neg (by decide)]; rfl
    · rw [import_at_artist, if_neg (by decide)]
      cases v <;> rfl
    · rw [import_at_album, if_neg (by decide)]; rfl
    · rw [import_at_artUrl, if_neg (by decide)]; rfl
    · rw [import_at_url, if_neg (by decide)]; rfl
    · rw [import_at_trackNumber, if_pos rfl]; rfl
    · rw [import_at_length, if_neg (by decide)]; rfl
  · rw [import_entry_other _ _ _ hk, if_neg (fun h => hk (by rw [h]; decide))]

theorem import_entry_duration (m : OlMetadata) (k : CStr) (v : GVariant) :
    (import_entry m k v).duration
      = if k = utf8 "mpris:length" then
          (fun v _ => to_guint64 (g_variant_get_int64 v)) v m.duration
        else m.duration := by
  by_cases hk : k ∈ import_keys
  · simp only [import_keys, List.mem_cons, List.mem_singleton, List.not_mem_nil,
      or_false] at hk
    rcases hk with rfl | rfl | rfl | rfl | rfl | rfl | rfl
    · rw [import_at_title, if_neg (by decide)]; rfl
    · rw [import_at_artist, if_neg (by decide)]
      cases v <;> rfl
    · rw [import_at_album, if_neg (by decide)]; rfl
    · rw [import_at_artUrl, if_neg (by decide)]; rfl
    · rw [import_at_url, if_neg (by decide)]; rfl
    · rw [import_at_trackNumber, if_neg (by decide)]; rfl
    · rw [import_at_length, if_pos rfl]; rfl
  · rw [import_entry_other _ _ _ hk, if_neg (fun h => hk (by rw [h]; decide))]

/-- Claim C16: for a property map in which no key occurs twice, the artist
is the value of `xesam:artist` when that is a single string, its elements
joined with `, ` when it is a sequence of strings, and absent for any other
shape or without the key; a field whose key is missing keeps its default
(absent string, track number -1, duration 0); and entries with a key other
than the seven compared have no effect on the result. -/
theorem new_from_variant_spec (variant : Dict) (hkeys : (variant.map Prod.fst).Nodup) :
    (∀ v, (utf8 "xesam:artist", v) ∈ variant →
      (ol_metadata_new_from_variant variant).artist =
        match v with
        | GVariant.string s => some s
        | GVariant.strv l => some (List.intercalate (utf8 ", ") l)
        | _ => none) ∧
    (utf8 "xesam:artist" ∉ variant.map Prod.fst →
      (ol_metadata_new_from_variant variant).artist = none) ∧
    (utf8 "xesam:title" ∉ variant.map Prod.fst →
      (ol_metadata_new_from_variant variant).title = none) ∧
    (utf8 "xesam:album" ∉ variant.map Prod.fst →
      (ol_metadata_new_from_variant variant).album = none) ∧
    (utf8 "mpris:artUrl" ∉ variant.map Prod.fst →
      (ol_metadata_new_from_variant variant).art = none) ∧
    (utf8 "xesam:url" ∉ variant.map Prod.fst →
      (ol_metadata_new_from_variant variant).uri = none) ∧
    (utf8 "xesam:trackNumber" ∉ variant.map Prod.fst →
      (ol_metadata_new_from_variant variant).track_number = -1) ∧
    (utf8 "mpris:length" ∉ variant.map Prod.fst →
      (ol_metadata_new_from_variant variant).duration = 0) ∧
    ol_metadata_new_from_variant
        (variant.filter (fun kv => decide (kv.1 ∈ import_keys)))
      = ol_metadata_new_from_variant variant := by
  unfold ol_metadata_new_from_variant
  refine ⟨?_, ?_, ?_, ?_, ?_, ?_, ?_, ?_, foldl_import_filter variant _⟩
  · intro v hv
    have h := (foldl_import_field (fun m => m.artist) (utf8 "xesam:artist") artist_from
      import_entry_artist variant ol_metadata_new).2 v hkeys hv
    simp only at h
    rw [h]
    cases v <;> rfl
  · exact (foldl_import_field (fun m => m.artist) (utf8 "xesam:artist") artist_from
      import_entry_artist variant ol_metadata_new).1
  · exact (foldl_import_field (fun m => m.title) (utf8 "xesam:title")
      (fun v _ => g_variant_get_string v) import_entry_title variant ol_metadata_new).1
  · exact (foldl_import_field (fun m => m.album) (utf8 "xesam:album")
      (fun v _ => g_variant_get_string v) import_entry_album variant ol_metadata_new).1
  · exact (foldl_import_field (fun m => m.art) (utf8 "mpris:artUrl")
      (fun v _ => g_variant_get_string v) import_entry_art variant ol_metadata_new).1
  · exact (foldl_import_field (fun m => m.uri) (utf8 "xesam:url")
      (fun v _ => g_variant_get_string v) import_entry_uri variant ol_metadata_new).1
  · exact (foldl_import_field (fun m => m.track_number) (utf8 "xesam:trackNumber")
      (fun v _ => g_variant_get_int32 v) import_entry_track_number variant
      ol_metadata_new).1
  · exact (foldl_import_field (fun m => m.duration) (utf8 "mpris:length")
      (fun v _ => to_guint64 (g_variant_get_int64 v)) import_entry_duration variant
      ol_metadata_new).1

/-- Witness for claim C16: a map with a list of two artists, an unknown key
and a track number. -/
theorem new_from_variant_spec_witness :
    ol_metadata_new_from_variant
        [(utf8 "xesam:artist", GVariant.strv [utf8 "A", utf8 "B"]),
         (utf8 "xesam:genre", GVariant.strv [utf8 "Pop"]),
         (utf8 "xesam:trackNumber", GVariant.int32 3)]
      = { ol_metadata_new with artist := some (utf8 "A, B"), track_number := 3 } ∧
    (ol_metadata_new_from_variant
        [(utf8 "xesam:artist", GVariant.strv [utf8 "A", utf8 "B"]),
         (utf8 "xesam:genre", GVariant.strv [utf8 "Pop"]),
         (utf8 "xesam:trackNumber", GVariant.int32 3)]).title = none ∧
    (ol_metadata_new_from_variant
        [(utf8 "xesam:artist", GVariant.strv [utf8 "A", utf8 "B"]),
         (utf8 "xesam:genre", GVariant.strv [utf8 "Pop"]),
         (utf8 "xesam:trackNumber", GVariant.int32 3)]).artist
      = some (List.intercalate (utf8 ", ") [utf8 "A", utf8 "B"]) :=
  ⟨by decide,
    (new_from_variant_spec
      [(utf8 "xesam:artist", GVariant.strv [utf8 "A", utf8 "B"]),
       (utf8 "xesam:genre", GVariant.strv [utf8 "Pop"]),
       (utf8 "xesam:trackNumber", GVariant.int32 3)] (by decide)).2.2.1 (by decide),
    (new_from_variant_spec
      [(utf8 "xesam:artist", GVariant.strv [utf8 "A", utf8 "B"]),
       (utf8 "xesam:genre", GVariant.strv [utf8 "Pop"]),
       (utf8 "xesam:trackNumber", GVariant.int32 3)] (by decide)).1
      (GVariant.strv [utf8 "A", utf8 "B"]) (by decide)⟩

end OsdLyrics
